import Mathlib

/-!
# Verification of the jsac edge-computing simulator core

Shallow embedding of `icarus/models/service/compSpot.py` and
`icarus/scenarios/workload.py` (oascigil/jsac).  Python floats are modelled
as exact rationals (`ℚ`), Python lists as `List`, in-place mutation as
explicit state passing, and exceptions as `Option` (`none` = the call
raises).  Loops whose termination is not structural carry an explicit fuel
argument.  Definitions are transcribed from the source statement by
statement; each doc string cites the lines it embeds.
-/

namespace Jsac

/-- Module-level status codes of compSpot.py / workload.py. -/
def REQUEST : ℕ := 0

def RESPONSE : ℕ := 1

def TASK_COMPLETE : ℕ := 2

/-- Admission result codes of compSpot.py. -/
def DEADLINE_MISSED : ℕ := 0

def CONGESTION : ℕ := 1

def SUCCESS : ℕ := 2

def CLOUD : ℕ := 3

def NO_INSTANCES : ℕ := 4

/-- First index of the minimum of a list (`l.index(min(l))` in Python);
`0` for the empty list, where Python `min` would raise. -/
def idxOfMin (l : List ℚ) : ℕ :=
  match l with
  | [] => 0
  | a :: t => l.findIdx (fun x => decide (x = t.foldl min a))

/-- `min(l)` for a nonempty list, `0` for `[]`. -/
def listMin (l : List ℚ) : ℚ :=
  match l with
  | [] => 0
  | a :: t => t.foldl min a

/-- Per-core bookkeeping of a computational spot (`CpuInfo`,
compSpot.py lines 61-141).  `numOfCores` mirrors the Python attribute;
both lists have that length in every state the constructor produces. -/
structure CpuInfo where
  numOfCores : ℕ
  coreFinishTime : List ℚ
  coreService : List (Option ℕ)
  idleTime : ℚ
deriving Repr, DecidableEq

/-- `CpuInfo.__init__` (lines 66-74). -/
def CpuInfo.init (numOfCores : ℕ) : CpuInfo :=
  { numOfCores := numOfCores
    coreFinishTime := List.replicate numOfCores 0
    coreService := List.replicate numOfCores none
    idleTime := 0 }

/-- `CpuInfo.get_idleTime` (lines 76-85).  Note the idle credit is added
BEFORE the finish time is overwritten, so the gap `time - finish[i]` is
really credited.  Returns the value together with the mutated record. -/
def CpuInfo.get_idleTime (c : CpuInfo) (time : ℚ) : ℚ × CpuInfo :=
  let c' := (List.range c.numOfCores).foldl
    (fun acc i =>
      if acc.coreFinishTime.getD i 0 < time then
        { acc with
          idleTime := acc.idleTime + (time - acc.coreFinishTime.getD i 0)
          coreFinishTime := acc.coreFinishTime.set i time }
      else acc) c
  (c'.idleTime, c')

/-- `CpuInfo.update_core_status` (lines 131-137), transcribed with the
source's statement order: `coreFinishTime[indx] = time` is executed BEFORE
`idleTime += time - coreFinishTime[indx]`, so the credit reads the freshly
overwritten value. -/
def CpuInfo.update_core_status (c : CpuInfo) (time : ℚ) : CpuInfo :=
  (List.range c.coreService.length).foldl
    (fun acc i =>
      if acc.coreFinishTime.getD i 0 ≤ time then
        let ft := acc.coreFinishTime.set i time
        { acc with
          coreFinishTime := ft
          idleTime := acc.idleTime + (time - ft.getD i 0)
          coreService := acc.coreService.set i none }
      else acc) c

/-- `CpuInfo.get_available_core` (lines 87-105): free every core whose
finish time is `≤ time` (crediting idle time in the correct order), then
return the first argmin core if it is available, together with the number
of freed cores and the mutated record. -/
def CpuInfo.get_available_core (c : CpuInfo) (time : ℚ) :
    Option ℕ × ℕ × CpuInfo :=
  let step := (List.range c.coreService.length).foldl
    (fun (acc : ℕ × CpuInfo) i =>
      let cc := acc.2
      if cc.coreFinishTime.getD i 0 ≤ time then
        (acc.1 + 1,
         { cc with
           idleTime := cc.idleTime + (time - cc.coreFinishTime.getD i 0)
           coreFinishTime := cc.coreFinishTime.set i time
           coreService := cc.coreService.set i none })
      else acc) (0, c)
  let c' := step.2
  let indx := idxOfMin c'.coreFinishTime
  if c'.coreFinishTime.getD indx 0 ≤ time then (some indx, step.1, c')
  else (none, 0, c')

/-- `CpuInfo.get_next_available_core` (lines 118-121). -/
def CpuInfo.get_next_available_core (c : CpuInfo) : ℕ :=
  idxOfMin c.coreFinishTime

/-- `CpuInfo.assign_task_to_core` (lines 123-129); `none` models the
`ValueError` raised when the core is still busy past `fin_time`. -/
def CpuInfo.assign_task_to_core (c : CpuInfo) (core_indx : ℕ)
    (fin_time : ℚ) (service : ℕ) : Option CpuInfo :=
  if fin_time < c.coreFinishTime.getD core_indx 0 then none
  else some
    { c with
      coreService := c.coreService.set core_indx (some service)
      coreFinishTime := c.coreFinishTime.set core_indx fin_time }

/-- A one-core CPU that has been idle since time 0. -/
def cpuC2 : CpuInfo :=
  { numOfCores := 1, coreFinishTime := [0], coreService := [none], idleTime := 0 }

/-- **C2.**  The claim says `advance(now)` (`update_core_status`) credits
`now - finish[k]` to `idleTime` for every idle core.  The code overwrites
`coreFinishTime[indx]` with `time` one line BEFORE adding
`time - coreFinishTime[indx]`, so the credit is always `0`: advancing a
core idle since time 0 to time 5 leaves `idleTime = 0`, while the sibling
`get_idleTime` (which credits before overwriting, the clear intent)
reports `5` on the same state.  The finish-time update and the clearing of
the running service do happen as claimed. -/
theorem update_core_status_no_idle_credit :
    (cpuC2.update_core_status 5).idleTime = 0 ∧
    (cpuC2.update_core_status 5).coreFinishTime = [5] ∧
    (cpuC2.update_core_status 5).coreService = [none] ∧
    (cpuC2.get_idleTime 5).1 = 5 := by
  norm_num [cpuC2, CpuInfo.update_core_status, CpuInfo.get_idleTime,
    List.range_succ]

/-! ## Pricing engine (`compute_prices` and helpers, compSpot.py lines 358-483)

The per-service subproblem is a box-constrained linear program solved by
the external cvxpy library; its exact optimum has the closed form
`x_c = L_c` when `u_c > p` and `0` otherwise (spec §9 notes this closed
form is exact for this problem shape), which is what `lpSolve` computes. -/

/-- `stage1AppSPCompactRequestedTraffic` (lines 422-443): optimum of
maximise `(1/mu) Σ_c (u_c - p) x_c` over `0 ≤ x ≤ L`, with the source's
cutoff: when the optimal value is negative or smaller than `1e-5` the
admitted total is reported as `0`.  Returns `(Xsum, x)`. -/
def lpSolve (p mu : ℚ) (u L : List ℚ) : ℚ × List ℚ :=
  let x := List.zipWith (fun uc Lc => if p < uc then Lc else 0) u L
  let result := (1 / mu) * (List.zipWith (fun uc xc => (uc - p) * xc) u x).sum
  if result < 0 ∨ |result| < 1 / 100000 then (0, x) else (x.sum, x)

/-- `brokerPriceUpdateSingleServiceNCloudlet` (lines 445-451) with the
default step `s = 0.5`: decrement every price, clamped at `0`; the flag is
set iff some price is `0` afterwards. -/
def brokerPriceUpdate (P : List ℚ) : List ℚ × Bool :=
  let P' := P.map (fun p => max 0 (p - 1/2))
  (P', P'.any (fun p => decide (p = 0)))

/-- `updateVMPrices` (lines 453-483).  `S` is `service_population`.
Returns `(endProcess, new vmPrices)`; the appended price is the last
service's current price (`price` ends the Python loop as `P[S-1]`, or the
initial `0.0` when `S = 0`). -/
def updateVMPrices (S n_services : ℕ) (X M P vmPrices : List ℚ) :
    Bool × List ℚ :=
  let y := ((List.range S).map (fun s => (1 / M.getD s 0) * X.getD s 0)).sum
  let objective := ((List.range S).map
    (fun s => (1 / M.getD s 0) * (P.getD s 0 - 1/5) * X.getD s 0)).sum
  let price := if S = 0 then 0 else P.getD (S - 1) 0
  if objective < 0 ∧ 1/1000 < |objective| then (true, vmPrices)
  else
    let requestedCapacity : ℤ := min ⌊y⌋ (n_services : ℤ)
    (!(decide (requestedCapacity < (n_services : ℤ))),
     vmPrices ++ List.replicate (requestedCapacity.toNat - vmPrices.length) price)

/-- The admitted totals `X` from one solve of all per-service subproblems
(the loop at lines 384-391). -/
def solveX (S : ℕ) (U L : List (List ℚ)) (M P : List ℚ) : List ℚ :=
  (List.range S).map
    (fun s => (lpSolve (P.getD s 0) (M.getD s 0) (U.getD s []) (L.getD s [])).1)

/-- Mutable state of the outer pricing loop. -/
structure PriceState where
  P : List ℚ
  X_old : ℚ
  flagLastTurn : Bool
  vmPrices : List ℚ
deriving Repr, DecidableEq

/-- One iteration of the outer pricing loop (lines 378-399).
`Sum.inr (P, vmPrices)` models `break`, `Sum.inl st'` models `continue` /
falling to the next iteration.  Note the stall branch (`X_current ==
X_old`) updates `P` and, only when the flag just turned on, falls through
to `updateVMPrices` with the NEW prices and breaks. -/
def computeStep (S : ℕ) (U L : List (List ℚ)) (M : List ℚ) (n_services : ℕ)
    (st : PriceState) : PriceState ⊕ (List ℚ × List ℚ) :=
  let X := solveX S U L M st.P
  if X.sum = st.X_old then
    let Pf := brokerPriceUpdate st.P
    if Pf.2 then
      Sum.inr (Pf.1, (updateVMPrices S n_services X M Pf.1 st.vmPrices).2)
    else
      Sum.inl { st with P := Pf.1, flagLastTurn := false }
  else
    let r := updateVMPrices S n_services X M st.P st.vmPrices
    if r.1 || st.flagLastTurn then Sum.inr (st.P, r.2)
    else Sum.inl { st with X_old := X.sum, vmPrices := r.2 }

/-- The outer pricing loop of `compute_prices` (lines 377-399), with
explicit fuel (`none` = the loop has not terminated within `fuel`
iterations).  The source declares `counter = 0` and `breakingPoint = 50`
(lines 368-369) but never reads or updates either: no iteration cap is
enforced on this loop. -/
def computeLoop (S : ℕ) (U L : List (List ℚ)) (M : List ℚ) (n_services : ℕ) :
    ℕ → PriceState → Option (List ℚ × List ℚ)
  | 0, _ => none
  | fuel + 1, st =>
    match computeStep S U L M n_services st with
    | Sum.inr out => some out
    | Sum.inl st' => computeLoop S U L M n_services fuel st'

/-- Initial loop state (lines 360-377): `P = [100]*S`, `X_old = 0`,
no flag, empty `vmPrices`. -/
def initPriceState (S : ℕ) : PriceState :=
  { P := List.replicate S 100, X_old := 0, flagLastTurn := false, vmPrices := [] }

/-- `compute_prices` (lines 358-419): run the outer loop, pad `vmPrices`
with `0.0` up to `n_services`, then re-solve every subproblem at the final
prices to publish the admitted per-class rates and per-service totals.
`C` is `num_classes`.  Returns `(vm_prices, admitted_service_rate,
admitted_service_class_rate)`. -/
def compute_prices_core (S C : ℕ) (U L : List (List ℚ)) (M : List ℚ)
    (n_services fuel : ℕ) : Option (List ℚ × List ℚ × List (List ℚ)) :=
  match computeLoop S U L M n_services fuel (initPriceState S) with
  | none => none
  | some Pvm =>
    let padded := Pvm.2 ++ List.replicate (n_services - Pvm.2.length) 0
    let X := solveX S U L M Pvm.1
    let rates := (List.range S).map (fun s =>
      let sol := lpSolve (Pvm.1.getD s 0) (M.getD s 0) (U.getD s []) (L.getD s [])
      if sol.1 ≠ 0 then (List.range C).map (fun c => sol.2.getD c 0)
      else List.replicate C 0)
    some (padded, X, rates)

/-! ### Termination of the pricing loop (claim C1)

Every price starts at `100` and the stall branch decrements all prices by
`1/2` in lockstep, so the loop state always carries `P = [k/2, ..., k/2]`;
a stalled iteration moves `k` to `k - 1` and the loop breaks at `k = 0`.
A non-stalled iteration leaves `P` alone but makes the next iteration a
stall (the subproblem solve is deterministic).  The measure
`2k + stallInd` therefore drops every iteration, giving termination within
`2·200 + 1 = 401` iterations — but not because of any iteration cap. -/

/-- `0` iff the next iteration will take the stall branch. -/
def stallInd (S : ℕ) (U L : List (List ℚ)) (M : List ℚ) (st : PriceState) : ℕ :=
  if (solveX S U L M st.P).sum = st.X_old then 0 else 1

lemma any_eq_zero_replicate (n : ℕ) (a : ℚ) :
    (List.replicate n a).any (fun p => decide (p = 0)) =
      (decide (n ≠ 0) && decide (a = 0)) := by
  induction n with
  | zero => simp
  | succ n ih =>
    rw [List.replicate_succ, List.any_cons, ih]
    cases h : decide (a = 0) <;> simp [h]

lemma brokerPriceUpdate_replicate (S : ℕ) (x : ℚ) :
    brokerPriceUpdate (List.replicate S x) =
      (List.replicate S (max 0 (x - 1/2)),
       decide (S ≠ 0) && decide (max 0 (x - 1/2) = 0)) := by
  simp [brokerPriceUpdate, List.map_replicate, any_eq_zero_replicate]

lemma stallInd_le_one (S : ℕ) (U L : List (List ℚ)) (M : List ℚ)
    (st : PriceState) : stallInd S U L M st ≤ 1 := by
  unfold stallInd
  split <;> omega

lemma computeLoop_isSome_of_measure (S : ℕ) (U L : List (List ℚ)) (M : List ℚ)
    (n : ℕ) (hS : 0 < S) :
    ∀ (fuel k : ℕ) (st : PriceState), st.P = List.replicate S ((k : ℚ) / 2) →
      1 ≤ k → st.flagLastTurn = false →
      2 * k + stallInd S U L M st ≤ fuel →
      (computeLoop S U L M n fuel st).isSome := by
  intro fuel
  induction fuel with
  | zero =>
    intro k st _ hk _ hle
    omega
  | succ fuel ih =>
    intro k st hP hk hflag hle
    rw [computeLoop]
    simp only [computeStep]
    by_cases hstall : (solveX S U L M st.P).sum = st.X_old
    · -- stall branch: prices are decremented
      have hind : stallInd S U L M st = 0 := by simp [stallInd, hstall]
      rw [hind] at hle
      rw [if_pos hstall, hP, brokerPriceUpdate_replicate]
      by_cases hk1 : k = 1
      · -- the decrement reaches zero: the flag turns on and the loop breaks
        subst hk1
        have hmax : max 0 (((1 : ℕ) : ℚ) / 2 - 1/2) = 0 := by norm_num
        rw [hmax, decide_eq_true (show (0 : ℚ) = 0 from rfl),
          decide_eq_true (Nat.pos_iff_ne_zero.mp hS), Bool.and_self]
        simp
      · -- the common price stays positive: recurse with `k - 1`
        have hk2 : 2 ≤ k := by omega
        have hxpos : (0 : ℚ) < (k : ℚ) / 2 - 1/2 := by
          have h2k : (2 : ℚ) ≤ (k : ℚ) := by exact_mod_cast hk2
          linarith
        have hmax : max 0 ((k : ℚ) / 2 - 1/2) = (k : ℚ) / 2 - 1/2 :=
          max_eq_right hxpos.le
        have hcond : (decide (S ≠ 0) && decide (max 0 ((k : ℚ)/2 - 1/2) = 0)) = false := by
          rw [hmax, decide_eq_false (ne_of_gt hxpos), Bool.and_false]
        rw [hcond]
        have hcast : max 0 ((k : ℚ) / 2 - 1/2) = ((k - 1 : ℕ) : ℚ) / 2 := by
          rw [hmax]
          have hsub : ((k - 1 : ℕ) : ℚ) = (k : ℚ) - 1 := by
            push_cast [Nat.cast_sub hk]
            ring
          rw [hsub]; ring
        rw [if_neg (by simp)]
        refine ih (k - 1) _ (by rw [hcast]) (by omega) rfl ?_
        refine le_trans (Nat.add_le_add_left (stallInd_le_one S U L M _) _) ?_
        omega
    · -- non-stall: either the loop breaks here or the next round stalls
      have hind : stallInd S U L M st = 1 := by simp [stallInd, hstall]
      rw [hind] at hle
      rw [if_neg hstall, hflag, Bool.or_false]
      by_cases hend : (updateVMPrices S n (solveX S U L M st.P) M st.P st.vmPrices).1 = true
      · rw [if_pos hend]
        simp
      · rw [if_neg hend]
        refine ih k _ hP hk rfl ?_
        have h0 : stallInd S U L M
            { P := st.P, X_old := (solveX S U L M st.P).sum,
              flagLastTurn := false,
              vmPrices := (updateVMPrices S n (solveX S U L M st.P) M st.P st.vmPrices).2 } = 0 := by
          simp [stallInd]
        rw [h0]
        omega

/-- **C1 (amended).**  The outer pricing loop of `compute_prices` is NOT
governed by an iteration cap (the declared `counter`/`breakingPoint = 50`
are dead variables), but it does terminate on every input with at least
one service: each stalled iteration lowers every per-service price by
`0.5` from the initial `100` and the loop breaks once a price reaches `0`,
so at most `401` outer iterations ever run and `compute_prices` publishes
the padded `vmPrices` of the final iteration. -/
theorem compute_prices_terminates (S C : ℕ) (U L : List (List ℚ))
    (M : List ℚ) (n_services fuel : ℕ) (hS : 0 < S) (hfuel : 402 ≤ fuel) :
    (compute_prices_core S C U L M n_services fuel).isSome := by
  have hP : (initPriceState S).P = List.replicate S (((200 : ℕ) : ℚ) / 2) := by
    rw [initPriceState]
    norm_num
  have hloop := computeLoop_isSome_of_measure S U L M n_services hS fuel 200
    (initPriceState S) hP (by omega) rfl
    (by
      have h : stallInd S U L M (initPriceState S) ≤ 1 := by
        unfold stallInd; split <;> omega
      omega)
  rcases hopt : computeLoop S U L M n_services fuel (initPriceState S) with _ | Pvm
  · rw [hopt] at hloop
    simp at hloop
  · rw [compute_prices_core, hopt]
    simp

/-- Closed witness for `compute_prices_terminates`. -/
theorem compute_prices_terminates_witness :
    (compute_prices_core 1 1 [[0]] [[0]] [1] 1 402).isSome :=
  compute_prices_terminates 1 1 [[0]] [[0]] [1] 1 402 (by norm_num) (by norm_num)

/-! ### The declared cap of 50 iterations is not enforced (C1 counterexample)

With one service, one class, and an all-zero arrival-rate matrix, every
iteration stalls, so the loop decrements the price from `100` by `0.5`
each round and only breaks at the 200th iteration — far beyond the dead
`breakingPoint = 50`. -/

/-- Loop state reached by the counterexample run when the price is `p`. -/
def cexSt (p : ℚ) : PriceState :=
  { P := [p], X_old := 0, flagLastTurn := false, vmPrices := [] }

lemma cex_lpSolve (p : ℚ) : lpSolve p 1 [0] [0] = (0, [0]) := by
  simp [lpSolve]

lemma cex_solveX (P : List ℚ) : solveX 1 [[0]] [[0]] [1] P = [0] := by
  simp [solveX, List.range_succ, cex_lpSolve]

lemma cex_step_high (p : ℚ) (hp : 1/2 < p) :
    computeStep 1 [[0]] [[0]] [1] 1 (cexSt p) = Sum.inl (cexSt (p - 1/2)) := by
  have hmax : max 0 (p - 1/2) = p - 1/2 := max_eq_right (by linarith)
  have hne : p - 1/2 ≠ 0 := by
    intro h
    rw [sub_eq_zero] at h
    rw [h] at hp
    norm_num at hp
  simp only [computeStep, cexSt, cex_solveX]
  norm_num [brokerPriceUpdate, hmax, hne]

lemma cex_step_low (p : ℚ) (hp : p ≤ 1/2) :
    computeStep 1 [[0]] [[0]] [1] 1 (cexSt p) = Sum.inr ([0], []) := by
  have hmax : max 0 (p - 1/2) = 0 := max_eq_left (by linarith)
  simp only [computeStep, cexSt, cex_solveX]
  norm_num [brokerPriceUpdate, hmax, updateVMPrices, List.range_succ]

lemma cex_none : ∀ (fuel : ℕ) (p : ℚ), (fuel : ℚ) ≤ 2 * p - 1 →
    computeLoop 1 [[0]] [[0]] [1] 1 fuel (cexSt p) = none := by
  intro fuel
  induction fuel with
  | zero => intro p _; rfl
  | succ fuel ih =>
    intro p hp
    have hcast : ((fuel + 1 : ℕ) : ℚ) = (fuel : ℚ) + 1 := by push_cast; ring
    rw [hcast] at hp
    have hphalf : 1/2 < p := by
      have h0 : (0 : ℚ) ≤ (fuel : ℚ) := by positivity
      linarith
    rw [computeLoop, cex_step_high p hphalf]
    exact ih (p - 1/2) (by linarith)

lemma cex_some : ∀ (fuel : ℕ) (p : ℚ), 0 < p → 2 * p ≤ (fuel : ℚ) →
    computeLoop 1 [[0]] [[0]] [1] 1 fuel (cexSt p) = some ([0], []) := by
  intro fuel
  induction fuel with
  | zero =>
    intro p hp hle
    norm_num at hle
    linarith
  | succ fuel ih =>
    intro p hp hle
    by_cases hphalf : p ≤ 1/2
    · rw [computeLoop, cex_step_low p hphalf]
    · push_neg at hphalf
      rw [computeLoop, cex_step_high p hphalf]
      have hcast : ((fuel + 1 : ℕ) : ℚ) = (fuel : ℚ) + 1 := by push_cast; ring
      rw [hcast] at hle
      exact ih (p - 1/2) (by linarith) (by linarith)

/-- **C1 counterexample.**  The claim reads the declared
`breakingPoint = 50` as an enforced cap on the outer loop, with the last
feasible `vmPrices` published on reaching it.  On the concrete input
`S = 1`, `C = 1`, `L = [[0]]`, `U = [[0]]`, `μ = [1]`, `K = 1` the loop is
still running after 50 — indeed after 199 — iterations, and first
terminates (by price descent, not by any cap) on its 200th iteration. -/
theorem compute_prices_cap_not_enforced :
    compute_prices_core 1 1 [[0]] [[0]] [1] 1 50 = none ∧
    compute_prices_core 1 1 [[0]] [[0]] [1] 1 199 = none ∧
    compute_prices_core 1 1 [[0]] [[0]] [1] 1 200 = some ([0], [0], [[0]]) := by
  have hinit : initPriceState 1 = cexSt 100 := rfl
  refine ⟨?_, ?_, ?_⟩
  · rw [compute_prices_core, hinit, cex_none 50 100 (by norm_num)]
  · rw [compute_prices_core, hinit, cex_none 199 100 (by norm_num)]
  · rw [compute_prices_core, hinit, cex_some 200 100 (by norm_num) (by norm_num)]
    simp [cex_solveX, List.range_succ, cex_lpSolve]

/-! ## Tasks, the spot state, and the schedulers
(compSpot.py lines 34-59 and 143-628) -/

/-- `Task` (compSpot.py lines 34-48); `finishTime` is `None` until the
task is placed on a core. -/
structure Task where
  service : ℕ
  time : ℚ
  expiry : ℚ
  rtt_delay : ℚ
  exec_time : ℚ
  node : ℕ
  flow_id : ℕ
  receiver : ℕ
  finishTime : Option ℚ
deriving Repr, DecidableEq

instance : Inhabited Task :=
  ⟨{ service := 0, time := 0, expiry := 0, rtt_delay := 0, exec_time := 0,
     node := 0, flow_id := 0, receiver := 0, finishTime := none }⟩

/-- A task with its `finishTime` erased, for frame statements. -/
def Task.sansFinish (t : Task) : Task :=
  { t with finishTime := none }

/-- The per-service attribute the spot consumes: `service_time` (τ_s).
The utility shape α only enters `compute_utilities`, whose real-valued
`pow(·, 1/α)` lies outside the rational embedding; utilities enter the
spot state as data. -/
structure Service where
  service_time : ℚ
deriving Repr, DecidableEq

/-- State of one `ComputationalSpot` (fields set in `__init__`,
lines 150-221). -/
structure SpotState where
  numOfCores : ℕ
  is_cloud : Bool
  sched_policy : String
  cpuInfo : CpuInfo
  n_services : ℕ
  taskQueue : List Task
  numberOfInstances : List ℤ
  missed_requests : List ℕ
  running_requests : List ℕ
  services : List Service
  vm_prices : Option (List ℚ)
  utilities : List (List ℚ)
  service_class_rate : List (List ℚ)
  admitted_service_rate : List ℚ
  admitted_service_class_rate : List (List ℚ)
  num_classes : ℕ
  node : ℕ
deriving Repr, DecidableEq

/-- `ComputationalSpot.__init__` (lines 150-221).  Line 164 overrides the
`numOfCores` argument with `n_services`, so the core pool is built with
`n_services` cores.  `vm_prices` starts as Python `None`. -/
def ComputationalSpot.init (numOfCores n_services : ℕ) (services : List Service)
    (node num_classes : ℕ) (sched_policy : String)
    (utilities : List (List ℚ)) : SpotState :=
  { numOfCores := n_services
    is_cloud := false
    sched_policy := sched_policy
    cpuInfo := CpuInfo.init n_services
    n_services := n_services
    taskQueue := []
    numberOfInstances := List.replicate services.length 0
    missed_requests := List.replicate services.length 0
    running_requests := List.replicate services.length 0
    services := services
    vm_prices := none
    utilities := utilities
    service_class_rate := List.replicate services.length (List.replicate num_classes 0)
    admitted_service_rate := List.replicate services.length 0
    admitted_service_class_rate := List.replicate services.length (List.replicate num_classes 0)
    num_classes := num_classes
    node := node }

/-- The VM-availability test shared by `schedule` (lines 250-252) and
`simulate_execution` (lines 300-303): a task passes when its service has
no instances at all (the "service replacement transition" hole) or when
fewer cores run the service than `numberOfInstances` allows. -/
def placeable (inst : List ℤ) (coreService : List (Option ℕ)) (t : Task) : Bool :=
  if 0 < inst.getD t.service 0 then
    decide (0 < inst.getD t.service 0 - (coreService.count (some t.service) : ℤ))
  else true

/-- Position in `work` of the first task the scan of lines 298-312 can
place, or `none` when the `for ... else` of lines 313-315 fires. -/
def findPlaceIdx (inst : List ℤ) (coreService : List (Option ℕ))
    (store : List Task) (work : List ℕ) : Option ℕ :=
  work.findIdx? (fun i => placeable inst coreService (store.getD i default))

/-- The dry-run loop of `simulate_execution` (lines 289-315).  `store` is
the spot's real queue (writing a task's `finishTime` mutates it through
the shared references of the shallow copy), `work` the pending positions,
`cpu` the deep copy.  Fuel exhaustion and the source's `ValueError` path
in `assign_task_to_core` (unreachable for nonnegative service times)
return the store as mutated so far; the corresponding Python would still
be running resp. have raised. -/
def simLoop (inst : List ℤ) :
    ℕ → List Task → List ℕ → CpuInfo → ℕ → Bool → List Task
  | 0, store, _, _, _, _ => store
  | fuel + 1, store, work, cpu, core_indx, sched_failed =>
    if work.isEmpty then store
    else
      let core := if sched_failed then core_indx else cpu.get_next_available_core
      let time := cpu.coreFinishTime.getD core 0
      let cpu1 := cpu.update_core_status time
      (findPlaceIdx inst cpu1.coreService store work).elim
        (let lastT := store.getD (work.getD (work.length - 1) 0) default
         simLoop inst fuel store work cpu1
           (cpu1.coreService.findIdx (fun x => x == some lastT.service)) true)
        (fun j =>
          let i := work.getD j 0
          let t := store.getD i default
          let fin := time + t.exec_time
          (cpu1.assign_task_to_core core fin t.service).elim store
            (fun cpu2 =>
              simLoop inst fuel (store.set i { t with finishTime := some fin })
                (work.eraseIdx j) cpu2 core false))

/-- `simulate_execution` applied to a queue: the spot's `cpuInfo` must
already reflect the caller's `update_core_status(time)` (lines 511/573).
The source's `while` loop runs until the queue copy empties; it always
does, because a failed scan (the for-else) points `core_indx` at a core
running the last task's service and the next iteration's
`update_core_status` frees it (its finish time is `≤` the new `time`), so
at most `numOfCores` failures separate placements.  The fuel
`(numOfCores + 2) * (len + 1)` strictly dominates the measure
`(numOfCores + 2) * remaining + busyCores` and is proven sufficient in
`simLoop_completes`: the dry run terminates with every task's
`finishTime` computed, exactly as the source does. -/
def simQueue (st : SpotState) (queue : List Task) : List Task :=
  simLoop st.numberOfInstances
    ((st.cpuInfo.coreService.length + 2) * (queue.length + 1)) queue
    (List.range queue.length) st.cpuInfo 0 false

/-- `simulate_execution` (lines 265-315) as a spot-level operation: the
dry run mutates a deep copy of `cpuInfo` and pops from a shallow copy of
the queue, so the only field it touches is the `finishTime` stored in the
queued tasks. -/
def simulate_execution (st : SpotState) : SpotState :=
  { st with taskQueue := simQueue st st.taskQueue }

/-- `schedule` (lines 235-263): free cores via the mutating
`get_available_core`, then pop and place the first task that passes the
VM-availability rule.  Outer `none` models the `ValueError` of
`assign_task_to_core`; the inner option is the returned task. -/
def schedule_spot (st : SpotState) (time : ℚ) : Option (Option Task × SpotState) :=
  let gac := st.cpuInfo.get_available_core time
  let cpu1 := gac.2.2
  gac.1.elim (some (none, { st with cpuInfo := cpu1 }))
    (fun core_indx =>
      (st.taskQueue.findIdx?
          (fun t => placeable st.numberOfInstances cpu1.coreService t)).elim
        (some (none, { st with cpuInfo := cpu1 }))
        (fun j =>
          let t := st.taskQueue.getD j default
          (cpu1.assign_task_to_core core_indx (time + t.exec_time) t.service).bind
            (fun cpu2 =>
              some (some { t with finishTime := some (time + t.exec_time) },
                { st with cpuInfo := cpu2, taskQueue := st.taskQueue.eraseIdx j }))))

/-- An event pushed through `controller.add_event`; the sixth Python
argument is the deadline in the FIFO/EDF paths and the traffic class in
the auction path. -/
structure CEvent where
  time : ℚ
  receiver : ℕ
  service : ℕ
  node : ℕ
  flow_id : ℕ
  deadline_or_class : ℚ
  rtt_delay : ℚ
  status : ℕ
deriving Repr, DecidableEq

/-- A `controller.execute_service` record: the auction variant (line 334)
carries the `(utility, price)` pair, the FIFO/EDF/cloud variant
(lines 501/530/556/592) the plain argument list. -/
inductive ExecRecord where
  | auction (time : ℚ) (service : ℕ) (is_cloud : Bool) (traffic_class : ℕ)
      (utility price : ℚ)
  | plain (flow_id : ℕ) (service : ℕ) (node : ℕ) (time : ℚ) (is_cloud : Bool)
deriving Repr, DecidableEq

/-- Result of an admission call: the returned pair, the new spot state,
and the controller interactions. -/
structure AdmitOut where
  accepted : Bool
  code : ℕ
  st : SpotState
  events : List CEvent
  execs : List ExecRecord
deriving Repr, DecidableEq

/-- The `Task(...)` construction of lines 509/570. -/
def mkTask (st : SpotState) (service : ℕ) (time : ℚ) (flow_id : ℕ)
    (deadline : ℚ) (receiver : ℕ) (rtt_delay : ℚ) (serviceTime : ℚ) : Task :=
  { service := service, time := time, expiry := deadline, rtt_delay := rtt_delay,
    exec_time := serviceTime, node := st.node, flow_id := flow_id,
    receiver := receiver, finishTime := none }

/-- The deadline check of lines 517/579 under Python-2 comparison
semantics: `expiry - rtt < None` is `False` (`None` sorts below every
number), so a task without a finish time never trips the check. -/
def violates (t : Task) : Bool :=
  match t.finishTime with
  | none => false
  | some f => decide (t.expiry - t.rtt_delay < f)

/-- The shared tail of a successful FIFO/EDF admission
(lines 524-537 / 586-599): bump `running_requests`, call `schedule`, and
report the dispatched task (if any) to the controller.  `st` already
carries the simulated queue and the advanced CPU. -/
def admitSuccess (st : SpotState) (service : ℕ) (time : ℚ) : Option AdmitOut :=
  let st1 := { st with running_requests :=
      st.running_requests.set service (st.running_requests.getD service 0 + 1) }
  (schedule_spot st1 time).bind (fun nt =>
    nt.1.elim
      (some { accepted := true, code := SUCCESS, st := nt.2, events := [], execs := [] })
      (fun newTask =>
        some { accepted := true, code := SUCCESS, st := nt.2,
               events := [{ time := newTask.finishTime.getD 0, receiver := newTask.receiver,
                            service := newTask.service, node := st.node,
                            flow_id := newTask.flow_id, deadline_or_class := newTask.expiry,
                            rtt_delay := newTask.rtt_delay, status := TASK_COMPLETE }],
               execs := [.plain newTask.flow_id newTask.service st.node time st.is_cloud] }))

/-- The cloud short-circuit shared by both admissions (lines 499-504 /
553-559). -/
def admitCloud (st : SpotState) (service : ℕ) (time : ℚ) (flow_id : ℕ)
    (deadline : ℚ) (receiver : ℕ) (rtt_delay : ℚ) (serviceTime : ℚ) : AdmitOut :=
  { accepted := true, code := CLOUD, st := st,
    events := [{ time := time + serviceTime, receiver := receiver, service := service,
                 node := st.node, flow_id := flow_id, deadline_or_class := deadline,
                 rtt_delay := rtt_delay, status := TASK_COMPLETE }],
    execs := [.plain flow_id service st.node time st.is_cloud] }

/-- The spot after the `update_core_status(time)` of lines 511/573. -/
def stAdvanced (st : SpotState) (time : ℚ) : SpotState :=
  { st with cpuInfo := st.cpuInfo.update_core_status time }

/-- The queue with the new task appended (lines 509-510 / 570-571). -/
def withNewTask (st : SpotState) (service : ℕ) (time : ℚ) (flow_id : ℕ)
    (deadline : ℚ) (receiver : ℕ) (rtt_delay : ℚ) (serviceTime : ℚ) : List Task :=
  st.taskQueue ++ [mkTask st service time flow_id deadline receiver rtt_delay serviceTime]

/-- The simulated FIFO queue the feasibility check of lines 513-522 scans. -/
def fifoStore (st : SpotState) (service : ℕ) (time : ℚ) (flow_id : ℕ)
    (deadline : ℚ) (receiver : ℕ) (rtt_delay : ℚ) (serviceTime : ℚ) : List Task :=
  simQueue (stAdvanced st time)
    (withNewTask st service time flow_id deadline receiver rtt_delay serviceTime)

/-- `admit_task_FIFO` (lines 485-537).  On congestion the identity-based
`taskQueue.remove(aTask)` removes exactly the just-appended task, which
sits at the last position, hence `dropLast`. -/
def admit_task_FIFO (st : SpotState) (service : ℕ) (time : ℚ) (flow_id : ℕ)
    (deadline : ℚ) (receiver : ℕ) (rtt_delay : ℚ) : Option AdmitOut :=
  (st.services.get? service).bind (fun sv =>
    if st.is_cloud then
      some (admitCloud st service time flow_id deadline receiver rtt_delay sv.service_time)
    else if st.numberOfInstances.getD service 0 = 0 then
      some { accepted := false, code := NO_INSTANCES, st := st, events := [], execs := [] }
    else
      let store := fifoStore st service time flow_id deadline receiver rtt_delay sv.service_time
      if store.any violates then
        some { accepted := false
               code := CONGESTION
               st := { stAdvanced st time with
                       taskQueue := store.dropLast
                       missed_requests := st.missed_requests.set service
                         (st.missed_requests.getD service 0 + 1) }
               events := []
               execs := [] }
      else admitSuccess { stAdvanced st time with taskQueue := store } service time)

/-- The sort key of line 572: nondecreasing absolute deadline. -/
def taskLE (a b : Task) : Prop :=
  a.expiry ≤ b.expiry

instance : DecidableRel taskLE :=
  fun a b => inferInstanceAs (Decidable (a.expiry ≤ b.expiry))

/-- `taskLE` lifted to `(original position, task)` pairs. -/
def pairLE (a b : ℕ × Task) : Prop :=
  a.2.expiry ≤ b.2.expiry

instance : DecidableRel pairLE :=
  fun a b => inferInstanceAs (Decidable (a.2.expiry ≤ b.2.expiry))

instance : IsTotal (ℕ × Task) pairLE :=
  ⟨fun a b => le_total a.2.expiry b.2.expiry⟩

instance : IsTrans (ℕ × Task) pairLE :=
  ⟨fun _ _ _ h1 h2 => le_trans h1 h2⟩

/-- The stable sort of line 572, on `(original position, task)` pairs so
that the position of the just-appended task (the object the Python
`remove` later deletes by identity) can be tracked.  Python `sorted` is a
stable sort; `insertionSort` with a total preorder is stable, and any two
stable sorts agree. -/
def edfSortPairs (q : List Task) : List (ℕ × Task) :=
  List.insertionSort pairLE q.enum

/-- The sorted `(position, task)` pairs of an EDF admission (line 572). -/
def edfPairs (st : SpotState) (service : ℕ) (time : ℚ) (flow_id : ℕ)
    (deadline : ℚ) (receiver : ℕ) (rtt_delay : ℚ) (serviceTime : ℚ) : List (ℕ × Task) :=
  edfSortPairs (withNewTask st service time flow_id deadline receiver rtt_delay serviceTime)

/-- The simulated EDF queue the feasibility check of lines 575-584 scans. -/
def edfStore (st : SpotState) (service : ℕ) (time : ℚ) (flow_id : ℕ)
    (deadline : ℚ) (receiver : ℕ) (rtt_delay : ℚ) (serviceTime : ℚ) : List Task :=
  simQueue (stAdvanced st time)
    ((edfPairs st service time flow_id deadline receiver rtt_delay serviceTime).map Prod.snd)

/-- Position of the just-appended task (the object `remove` deletes by
identity) inside the sorted queue: its original position is
`len(taskQueue)`. -/
def edfAPos (st : SpotState) (service : ℕ) (time : ℚ) (flow_id : ℕ)
    (deadline : ℚ) (receiver : ℕ) (rtt_delay : ℚ) (serviceTime : ℚ) : ℕ :=
  (edfPairs st service time flow_id deadline receiver rtt_delay serviceTime).findIdx
    (fun p => p.1 == st.taskQueue.length)

/-- `admit_task_EDF` (lines 539-599): FIFO plus the early
`DEADLINE_MISSED` guard (line 565) and the re-sort by expiry (line 572). -/
def admit_task_EDF (st : SpotState) (service : ℕ) (time : ℚ) (flow_id : ℕ)
    (deadline : ℚ) (receiver : ℕ) (rtt_delay : ℚ) : Option AdmitOut :=
  (st.services.get? service).bind (fun sv =>
    if st.is_cloud then
      some (admitCloud st service time flow_id deadline receiver rtt_delay sv.service_time)
    else if st.numberOfInstances.getD service 0 = 0 then
      some { accepted := false, code := NO_INSTANCES, st := st, events := [], execs := [] }
    else if deadline - time - rtt_delay - sv.service_time < 0 then
      some { accepted := false, code := DEADLINE_MISSED, st := st, events := [], execs := [] }
    else
      let store := edfStore st service time flow_id deadline receiver rtt_delay sv.service_time
      if store.any violates then
        some { accepted := false
               code := CONGESTION
               st := { stAdvanced st time with
                       taskQueue := store.eraseIdx
                         (edfAPos st service time flow_id deadline receiver rtt_delay sv.service_time)
                       missed_requests := st.missed_requests.set service
                         (st.missed_requests.getD service 0 + 1) }
               events := []
               execs := [] }
      else admitSuccess { stAdvanced st time with taskQueue := store } service time)

/-- `admit_task` (lines 601-610); the unknown-policy branch returns
Python `None`, conflated here with the error `none`. -/
def admit_task (st : SpotState) (service : ℕ) (time : ℚ) (flow_id : ℕ)
    (deadline : ℚ) (receiver : ℕ) (rtt_delay : ℚ) : Option AdmitOut :=
  if st.sched_policy = "EDF" then
    admit_task_EDF st service time flow_id deadline receiver rtt_delay
  else if st.sched_policy = "FIFO" then
    admit_task_FIFO st service time flow_id deadline receiver rtt_delay
  else none

/-- `admit_task_auction` (lines 317-335).  `none` models the Python
index/type errors on the `services`, `utilities` and `vm_prices` lookups
and the `ValueError` of `assign_task_to_core`. -/
def admit_task_auction (st : SpotState) (service : ℕ) (time : ℚ) (flow_id : ℕ)
    (traffic_class : ℕ) (receiver : ℕ) (rtt_delay : ℚ) : Option AdmitOut :=
  (st.services.get? service).bind (fun sv =>
    let stU := stAdvanced st time
    let gac := stU.cpuInfo.get_available_core time
    let cpu2 := gac.2.2
    gac.1.elim
      (some { accepted := false, code := CONGESTION, st := { stU with cpuInfo := cpu2 },
              events := [], execs := [] })
      (fun core_indx =>
        ((st.utilities.get? service).bind (fun row => row.get? traffic_class)).bind
          (fun utility =>
            st.vm_prices.bind (fun prices =>
              (prices.get? (gac.2.1 - 1)).bind (fun price =>
                if utility < price then
                  some { accepted := false, code := CONGESTION,
                         st := { stU with cpuInfo := cpu2 }, events := [], execs := [] }
                else
                  (cpu2.assign_task_to_core core_indx (time + sv.service_time) service).bind
                    (fun cpu3 =>
                      some { accepted := true, code := SUCCESS
                             st := { stU with cpuInfo := cpu3 }
                             events := [{ time := time + sv.service_time, receiver := receiver,
                                          service := service, node := st.node, flow_id := flow_id,
                                          deadline_or_class := (traffic_class : ℚ),
                                          rtt_delay := rtt_delay, status := TASK_COMPLETE }]
                             execs := [.auction time service st.is_cloud traffic_class utility price] }))))))

/-- `reassign_vm` (lines 612-622): `none` models the `ValueError` when the
replaced service has no instances (and the Python `IndexError` on an
out-of-range service id).  The increment precedes the decrement as in the
source. -/
def reassign_vm (st : SpotState) (serviceToReplace newService : ℕ) : Option SpotState :=
  (st.numberOfInstances.get? serviceToReplace).bind (fun cnt =>
    if cnt = 0 then none
    else if newService < st.numberOfInstances.length then
      let l1 := st.numberOfInstances.set newService
        (st.numberOfInstances.getD newService 0 + 1)
      some { st with
             numberOfInstances :=
               l1.set serviceToReplace (l1.getD serviceToReplace 0 - 1) }
    else none)

/-- `getIdleTime` (lines 624-628). -/
def getIdleTime_spot (st : SpotState) (time : ℚ) : ℚ × SpotState :=
  let r := st.cpuInfo.get_idleTime time
  (r.1, { st with cpuInfo := r.2 })

/-- `compute_prices` (lines 358-419) as a spot operation:
`M = [1.0/x.service_time for x in self.services]` (line 361),
`L = self.service_class_rate` (line 363), `U = self.utilities`
(line 364). -/
def compute_prices_spot (st : SpotState) (fuel : ℕ) : Option SpotState :=
  (compute_prices_core st.services.length st.num_classes st.utilities
      st.service_class_rate (st.services.map (fun sv => 1 / sv.service_time))
      st.n_services fuel).bind (fun out =>
    some { st with
           vm_prices := some out.1
           admitted_service_rate := out.2.1
           admitted_service_class_rate := out.2.2 })

/-! ## C8: the dry-run simulation only writes `finishTime` -/

lemma sansFinish_set (store : List Task) (i : ℕ) (fin : ℚ) :
    ((store.set i { store.getD i default with finishTime := some fin }).map
        Task.sansFinish) = store.map Task.sansFinish := by
  induction store generalizing i with
  | nil => simp
  | cons a l ih =>
    cases i with
    | zero => simp [Task.sansFinish]
    | succ n =>
      simp only [List.set_cons_succ, List.getD_cons_succ, List.map_cons]
      rw [ih n]

lemma elimPred {α β : Type _} (o : Option α) (b : β) (f : α → β)
    (P : β → Prop) (hb : P b) (hf : ∀ a, P (f a)) : P (o.elim b f) := by
  cases o
  · exact hb
  · exact hf _

lemma simLoop_map_sansFinish (inst : List ℤ) :
    ∀ (fuel : ℕ) (store : List Task) (work : List ℕ) (cpu : CpuInfo)
      (ci : ℕ) (sf : Bool),
      (simLoop inst fuel store work cpu ci sf).map Task.sansFinish =
        store.map Task.sansFinish := by
  intro fuel
  induction fuel with
  | zero => intro store work cpu ci sf; rfl
  | succ fuel ih =>
    intro store work cpu ci sf
    simp only [simLoop]
    split
    · rfl
    · split
      · refine elimPred _ _ _
          (fun r : List Task =>
            List.map Task.sansFinish r = List.map Task.sansFinish store) ?_ ?_
        · exact ih _ _ _ _ _
        · intro j
          refine elimPred _ _ _
            (fun r : List Task =>
              List.map Task.sansFinish r = List.map Task.sansFinish store) ?_ ?_
          · rfl
          · intro cpu2
            rw [ih, sansFinish_set]
      · refine elimPred _ _ _
          (fun r : List Task =>
            List.map Task.sansFinish r = List.map Task.sansFinish store) ?_ ?_
        · exact ih _ _ _ _ _
        · intro j
          refine elimPred _ _ _
            (fun r : List Task =>
              List.map Task.sansFinish r = List.map Task.sansFinish store) ?_ ?_
          · rfl
          · intro cpu2
            rw [ih, sansFinish_set]

/-- **C8.**  `simulate_execution` leaves the spot's CpuState and the
membership and order of its task queue unchanged: every spot field other
than the queue is untouched, and the queue keeps its length, order and
per-task fields except `finishTime` (the dry run mutates only the deep
copy of `cpuInfo`; its persistent side effect is writing `finishTime`
into the queued tasks through the shallow copy's shared references). -/
theorem simulate_execution_frame (st : SpotState) :
    (simulate_execution st).cpuInfo = st.cpuInfo ∧
    (simulate_execution st).taskQueue.map Task.sansFinish =
      st.taskQueue.map Task.sansFinish ∧
    (simulate_execution st).numberOfInstances = st.numberOfInstances ∧
    (simulate_execution st).missed_requests = st.missed_requests ∧
    (simulate_execution st).running_requests = st.running_requests ∧
    (simulate_execution st).vm_prices = st.vm_prices ∧
    (simulate_execution st).services = st.services :=
  ⟨rfl, simLoop_map_sansFinish _ _ _ _ _ _ _, rfl, rfl, rfl, rfl, rfl⟩

/-! ## C10: the constructor ignores `numOfCores`; prices are padded to
`n_services` -/

lemma updateVMPrices_len_le (S n : ℕ) (X M P vm : List ℚ)
    (h : vm.length ≤ n) : ((updateVMPrices S n X M P vm).2).length ≤ n := by
  rw [updateVMPrices]
  split
  · exact h
  · simp only [List.length_append, List.length_replicate]
    have hcap := Int.toNat_le.mpr (min_le_right
      ⌊((List.range S).map (fun s => (1 / M.getD s 0) * X.getD s 0)).sum⌋ (n : ℤ))
    omega

lemma computeStep_inl_len (S : ℕ) (U L : List (List ℚ)) (M : List ℚ) (n : ℕ)
    (st st' : PriceState) (h : st.vmPrices.length ≤ n)
    (hstep : computeStep S U L M n st = Sum.inl st') :
    st'.vmPrices.length ≤ n := by
  simp only [computeStep] at hstep
  split at hstep
  · split at hstep
    · exact absurd hstep (by simp)
    · obtain rfl := Sum.inl.inj hstep
      exact h
  · split at hstep
    · exact absurd hstep (by simp)
    · obtain rfl := Sum.inl.inj hstep
      exact updateVMPrices_len_le _ _ _ _ _ _ h

lemma computeStep_inr_len (S : ℕ) (U L : List (List ℚ)) (M : List ℚ) (n : ℕ)
    (st : PriceState) (out : List ℚ × List ℚ) (h : st.vmPrices.length ≤ n)
    (hstep : computeStep S U L M n st = Sum.inr out) :
    out.2.length ≤ n := by
  simp only [computeStep] at hstep
  split at hstep
  · split at hstep
    · obtain rfl := Sum.inr.inj hstep
      exact updateVMPrices_len_le _ _ _ _ _ _ h
    · exact absurd hstep (by simp)
  · split at hstep
    · obtain rfl := Sum.inr.inj hstep
      exact updateVMPrices_len_le _ _ _ _ _ _ h
    · exact absurd hstep (by simp)

lemma computeLoop_len (S : ℕ) (U L : List (List ℚ)) (M : List ℚ) (n : ℕ) :
    ∀ (fuel : ℕ) (st : PriceState) (out : List ℚ × List ℚ),
      st.vmPrices.length ≤ n →
      computeLoop S U L M n fuel st = some out → out.2.length ≤ n := by
  intro fuel
  induction fuel with
  | zero =>
    intro st out _ hc
    exact absurd hc (by rw [computeLoop]; simp)
  | succ fuel ih =>
    intro st out hlen hc
    rw [computeLoop] at hc
    cases hstep : computeStep S U L M n st with
    | inr o =>
      rw [hstep] at hc
      obtain rfl := Option.some.inj hc
      exact computeStep_inr_len S U L M n st o hlen hstep
    | inl st' =>
      rw [hstep] at hc
      exact ih st' out (computeStep_inl_len S U L M n st st' hlen hstep) hc

/-- **C10.**  The constructor ignores its `numOfCores` argument: the
resulting state is the same for any two values of it, the core pool has
`n_services` cores (`K = n_services`), and `compute_prices` publishes a
`vm_prices` vector of exactly that length `n_services`. -/
theorem constructor_ignores_numOfCores (a b n_services : ℕ)
    (services : List Service) (node num_classes : ℕ) (pol : String)
    (util : List (List ℚ)) :
    ComputationalSpot.init a n_services services node num_classes pol util =
      ComputationalSpot.init b n_services services node num_classes pol util ∧
    (ComputationalSpot.init a n_services services node num_classes pol
        util).cpuInfo.numOfCores = n_services ∧
    (ComputationalSpot.init a n_services services node num_classes pol
        util).cpuInfo.coreFinishTime.length = n_services ∧
    (∀ (st : SpotState) (fuel : ℕ) (st' : SpotState),
       compute_prices_spot st fuel = some st' →
       ∃ vm, st'.vm_prices = some vm ∧ vm.length = st.n_services) := by
  refine ⟨rfl, rfl, by simp [ComputationalSpot.init, CpuInfo.init], ?_⟩
  intro st fuel st' h
  rw [compute_prices_spot] at h
  rcases hc : compute_prices_core st.services.length st.num_classes st.utilities
      st.service_class_rate (st.services.map (fun sv => 1 / sv.service_time))
      st.n_services fuel with _ | out
  · rw [hc] at h
    exact absurd h (by simp)
  · rw [hc] at h
    obtain rfl := Option.some.inj h
    rw [compute_prices_core] at hc
    rcases hl : computeLoop st.services.length st.utilities st.service_class_rate
        (st.services.map (fun sv => 1 / sv.service_time)) st.n_services fuel
        (initPriceState st.services.length) with _ | Pvm
    · rw [hl] at hc
      exact absurd hc (by simp)
    · rw [hl] at hc
      obtain rfl := Option.some.inj hc
      refine ⟨_, rfl, ?_⟩
      have hle := computeLoop_len st.services.length st.utilities
        st.service_class_rate (st.services.map (fun sv => 1 / sv.service_time))
        st.n_services fuel (initPriceState st.services.length) Pvm
        (by simp [initPriceState]) hl
      simp only [List.length_append, List.length_replicate]
      omega

/-- A one-service spot used as concrete witness input. -/
def spotW : SpotState :=
  ComputationalSpot.init 7 1 [⟨1⟩] 0 1 "EDF" [[0]]

lemma cex_core_200 :
    compute_prices_core 1 1 [[0]] [[0]] [1] 1 200 = some ([0], [0], [[0]]) := by
  rw [compute_prices_core, show initPriceState 1 = cexSt 100 from rfl,
    cex_some 200 100 (by norm_num) (by norm_num)]
  simp [cex_solveX, List.range_succ, cex_lpSolve]

lemma spotW_prices : compute_prices_spot spotW 200 =
    some { spotW with
           vm_prices := some [0]
           admitted_service_rate := [0]
           admitted_service_class_rate := [[0]] } := by
  have hM : spotW.services.map (fun sv => 1 / sv.service_time) = [1] := by
    norm_num [spotW, ComputationalSpot.init]
  rw [compute_prices_spot, hM, show spotW.services.length = 1 from rfl,
    show spotW.num_classes = 1 from rfl, show spotW.utilities = [[0]] from rfl,
    show spotW.service_class_rate = [[0]] from rfl,
    show spotW.n_services = 1 from rfl, cex_core_200]
  rfl

/-- Closed witness for `constructor_ignores_numOfCores`: its price-length
conjunct applied to a concrete spot on which `compute_prices` succeeds. -/
theorem constructor_ignores_numOfCores_witness :
    ∃ vm, ({ spotW with
             vm_prices := some [0]
             admitted_service_rate := [0]
             admitted_service_class_rate := [[0]] } : SpotState).vm_prices = some vm ∧
          vm.length = spotW.n_services :=
  (constructor_ignores_numOfCores 7 9 1 [⟨1⟩] 0 1 "EDF" [[0]]).2.2.2 spotW 200 _
    spotW_prices

/-! ## C9: instance conservation -/

lemma schedule_spot_inst (st : SpotState) (t : ℚ) (out : Option Task × SpotState)
    (h : schedule_spot st t = some out) :
    out.2.numberOfInstances = st.numberOfInstances := by
  simp only [schedule_spot] at h
  rcases hg : (st.cpuInfo.get_available_core t).1 with _ | core
  · rw [hg] at h
    obtain rfl := Option.some.inj h
    rfl
  · rw [hg] at h
    rcases hf : st.taskQueue.findIdx?
        (fun tk => placeable st.numberOfInstances
          (st.cpuInfo.get_available_core t).2.2.coreService tk) with _ | j
    · rw [hf] at h
      obtain rfl := Option.some.inj h
      rfl
    · rw [hf] at h
      rcases Option.bind_eq_some.mp h with ⟨cpu2, _, hsome⟩
      obtain rfl := Option.some.inj hsome
      rfl

lemma admitSuccess_inst (st : SpotState) (service : ℕ) (time : ℚ)
    (out : AdmitOut) (h : admitSuccess st service time = some out) :
    out.st.numberOfInstances = st.numberOfInstances := by
  simp only [admitSuccess] at h
  rcases Option.bind_eq_some.mp h with ⟨nt, hs, hnt⟩
  have hinst := schedule_spot_inst _ _ _ hs
  rcases nt with ⟨nt1, st2⟩
  cases nt1 with
  | some newTask =>
    obtain rfl := Option.some.inj hnt
    exact hinst
  | none =>
    obtain rfl := Option.some.inj hnt
    exact hinst

set_option maxHeartbeats 1600000 in
lemma admit_task_FIFO_inst (st : SpotState) (service : ℕ) (time : ℚ)
    (flow_id : ℕ) (deadline : ℚ) (receiver : ℕ) (rtt : ℚ) (out : AdmitOut)
    (h : admit_task_FIFO st service time flow_id deadline receiver rtt = some out) :
    out.st.numberOfInstances = st.numberOfInstances := by
  simp only [admit_task_FIFO] at h
  rcases Option.bind_eq_some.mp h with ⟨sv, hsv, hbody⟩
  split at hbody
  · obtain rfl := Option.some.inj hbody
    rfl
  · split at hbody
    · obtain rfl := Option.some.inj hbody
      rfl
    · split at hbody
      · obtain rfl := Option.some.inj hbody
        rfl
      · have hs := admitSuccess_inst _ _ _ _ hbody
        exact hs

set_option maxHeartbeats 1600000 in
lemma admit_task_EDF_inst (st : SpotState) (service : ℕ) (time : ℚ)
    (flow_id : ℕ) (deadline : ℚ) (receiver : ℕ) (rtt : ℚ) (out : AdmitOut)
    (h : admit_task_EDF st service time flow_id deadline receiver rtt = some out) :
    out.st.numberOfInstances = st.numberOfInstances := by
  simp only [admit_task_EDF] at h
  rcases Option.bind_eq_some.mp h with ⟨sv, hsv, hbody⟩
  split at hbody
  · obtain rfl := Option.some.inj hbody
    rfl
  · split at hbody
    · obtain rfl := Option.some.inj hbody
      rfl
    · split at hbody
      · obtain rfl := Option.some.inj hbody
        rfl
      · split at hbody
        · obtain rfl := Option.some.inj hbody
          rfl
        · have hs := admitSuccess_inst _ _ _ _ hbody
          exact hs

lemma admit_task_inst (st : SpotState) (service : ℕ) (time : ℚ)
    (flow_id : ℕ) (deadline : ℚ) (receiver : ℕ) (rtt : ℚ) (out : AdmitOut)
    (h : admit_task st service time flow_id deadline receiver rtt = some out) :
    out.st.numberOfInstances = st.numberOfInstances := by
  rw [admit_task] at h
  split at h
  · exact admit_task_EDF_inst _ _ _ _ _ _ _ _ h
  · split at h
    · exact admit_task_FIFO_inst _ _ _ _ _ _ _ _ h
    · exact absurd h (by simp)

lemma admit_task_auction_inst (st : SpotState) (service : ℕ) (time : ℚ)
    (flow_id traffic_class receiver : ℕ) (rtt : ℚ) (out : AdmitOut)
    (h : admit_task_auction st service time flow_id traffic_class receiver rtt =
      some out) : out.st.numberOfInstances = st.numberOfInstances := by
  simp only [admit_task_auction] at h
  rcases Option.bind_eq_some.mp h with ⟨sv, hsv, hbody⟩
  rcases hg : ((stAdvanced st time).cpuInfo.get_available_core time).1 with _ | core
  · rw [hg] at hbody
    obtain rfl := Option.some.inj hbody
    rfl
  · rw [hg] at hbody
    rcases Option.bind_eq_some.mp hbody with ⟨utility, _, hb2⟩
    rcases Option.bind_eq_some.mp hb2 with ⟨prices, _, hb3⟩
    rcases Option.bind_eq_some.mp hb3 with ⟨price, _, hb4⟩
    split at hb4
    · obtain rfl := Option.some.inj hb4
      rfl
    · rcases Option.bind_eq_some.mp hb4 with ⟨cpu3, _, hb5⟩
      obtain rfl := Option.some.inj hb5
      rfl

lemma compute_prices_spot_inst (st : SpotState) (fuel : ℕ) (st' : SpotState)
    (h : compute_prices_spot st fuel = some st') :
    st'.numberOfInstances = st.numberOfInstances := by
  rw [compute_prices_spot] at h
  rcases Option.bind_eq_some.mp h with ⟨out, _, hsome⟩
  obtain rfl := Option.some.inj hsome
  rfl

/-- The spot's exposed operations (spec §6): the arguments of each public
method, with explicit fuel for `compute_prices`. -/
inductive SpotOp where
  | admitReq (service : ℕ) (time : ℚ) (flow_id : ℕ) (deadline : ℚ)
      (receiver : ℕ) (rtt : ℚ)
  | auction (service : ℕ) (time : ℚ) (flow_id : ℕ) (traffic_class : ℕ)
      (receiver : ℕ) (rtt : ℚ)
  | sched (time : ℚ)
  | reassign (a b : ℕ)
  | price (fuel : ℕ)
  | idle (time : ℚ)

/-- Dispatch one exposed operation; `none` aborts the run (a raised
exception). -/
def applyOp (st : SpotState) : SpotOp → Option SpotState
  | .admitReq s t f d r rt => (admit_task st s t f d r rt).map (fun o => o.st)
  | .auction s t f c r rt => (admit_task_auction st s t f c r rt).map (fun o => o.st)
  | .sched t => (schedule_spot st t).map (fun o => o.2)
  | .reassign a b => reassign_vm st a b
  | .price fuel => compute_prices_spot st fuel
  | .idle t => some (getIdleTime_spot st t).2

/-- Run a sequence of exposed operations. -/
def applyOps (st : SpotState) : List SpotOp → Option SpotState
  | [] => some st
  | op :: ops => (applyOp st op).bind (fun st' => applyOps st' ops)

lemma applyOp_inst_of_not_reassign (st : SpotState) (op : SpotOp)
    (st' : SpotState) (hop : ∀ a b, op ≠ SpotOp.reassign a b)
    (h : applyOp st op = some st') :
    st'.numberOfInstances = st.numberOfInstances := by
  cases op with
  | admitReq s t f d r rt =>
    rcases Option.map_eq_some'.mp h with ⟨out, ho, rfl⟩
    exact admit_task_inst _ _ _ _ _ _ _ _ ho
  | auction s t f c r rt =>
    rcases Option.map_eq_some'.mp h with ⟨out, ho, rfl⟩
    exact admit_task_auction_inst _ _ _ _ _ _ _ _ ho
  | sched t =>
    rcases Option.map_eq_some'.mp h with ⟨out, ho, rfl⟩
    exact schedule_spot_inst _ _ _ ho
  | reassign a b => exact absurd rfl (hop a b)
  | price fuel => exact compute_prices_spot_inst _ _ _ h
  | idle t =>
    obtain rfl := Option.some.inj h
    rfl

lemma reassign_vm_effects (st : SpotState) (a b : ℕ) (st' : SpotState)
    (h : reassign_vm st a b = some st') :
    st'.numberOfInstances.sum = st.numberOfInstances.sum ∧
    st'.numberOfInstances.length = st.numberOfInstances.length ∧
    ((∀ x ∈ st.numberOfInstances, 0 ≤ x) →
      ∀ x ∈ st'.numberOfInstances, 0 ≤ x) := by
  simp only [reassign_vm] at h
  rcases Option.bind_eq_some.mp h with ⟨cnt, hget, hbody⟩
  split at hbody
  · exact Option.noConfusion hbody
  rename_i hcnt
  split at hbody
  case isFalse => exact Option.noConfusion hbody
  case isTrue hb =>
  obtain rfl := Option.some.inj hbody
  have ha : a < st.numberOfInstances.length := by
    by_contra hc
    rw [List.get?_len_le (le_of_not_lt hc)] at hget
    exact absurd hget (by simp)
  have ha1 : a < (st.numberOfInstances.set b
      (st.numberOfInstances.getD b 0 + 1)).length := by simpa using ha
  have hc2 : st.numberOfInstances[a] = cnt := by
    rw [List.get?_eq_getElem?, List.getElem?_eq_getElem ha] at hget
    exact Option.some.inj hget
  refine ⟨?_, by simp, ?_⟩
  · -- the +1 at `b` and the -1 at `a` cancel in the sum
    rw [List.sum_set', dif_pos ha1, List.sum_set', dif_pos hb]
    have hgb := List.getD_eq_getElem st.numberOfInstances 0 hb
    have hga := List.getD_eq_getElem
      (st.numberOfInstances.set b (st.numberOfInstances.getD b 0 + 1)) 0 ha1
    omega
  · intro hpos x hx
    rcases List.mem_or_eq_of_mem_set hx with hx1 | rfl
    · rcases List.mem_or_eq_of_mem_set hx1 with hx2 | rfl
      · exact hpos x hx2
      · have h0 := hpos _ (List.getElem_mem hb)
        have hgb := List.getD_eq_getElem st.numberOfInstances 0 hb
        omega
    · have hga := List.getD_eq_getElem
        (st.numberOfInstances.set b (st.numberOfInstances.getD b 0 + 1)) 0 ha1
      rw [hga, List.getElem_set]
      split
      · have h0 := hpos _ (List.getElem_mem hb)
        have hgb := List.getD_eq_getElem st.numberOfInstances 0 hb
        omega
      · have h0 := hpos _ (List.getElem_mem ha)
        omega

lemma applyOps_inst (ops : List SpotOp) :
    ∀ (st st' : SpotState), applyOps st ops = some st' →
      st'.numberOfInstances.sum = st.numberOfInstances.sum ∧
      ((∀ x ∈ st.numberOfInstances, 0 ≤ x) →
        ∀ x ∈ st'.numberOfInstances, 0 ≤ x) := by
  induction ops with
  | nil =>
    intro st st' h
    obtain rfl := Option.some.inj h
    exact ⟨rfl, fun hp => hp⟩
  | cons op ops ih =>
    intro st st' h
    rw [applyOps] at h
    rcases ho : applyOp st op with _ | st1
    · rw [ho] at h
      exact absurd h (by simp)
    · rw [ho] at h
      replace h : applyOps st1 ops = some st' := h
      obtain ⟨hsum, hpos⟩ := ih st1 st' h
      by_cases hre : ∃ a b, op = SpotOp.reassign a b
      · obtain ⟨a, b, rfl⟩ := hre
        obtain ⟨hs, _, hp⟩ := reassign_vm_effects st a b st1 ho
        exact ⟨hsum.trans hs, fun h0 => hpos (hp h0)⟩
      · push_neg at hre
        have heq := applyOp_inst_of_not_reassign st op st1 (fun a b => hre a b) ho
        rw [heq] at hsum hpos
        exact ⟨hsum, hpos⟩

/-- **C9.**  Instance conservation: no exposed operation except
`reassign_vm` touches `numberOfInstances`; `reassign_vm` fails (raises)
when the replaced service has no instances, and on success it moves one
unit of mass, preserving the sum; hence along every successful operation
sequence the sum is constant and every entry stays nonnegative. -/
theorem instance_conservation :
    (∀ (st : SpotState) (op : SpotOp) (st' : SpotState),
        (∀ a b, op ≠ SpotOp.reassign a b) → applyOp st op = some st' →
        st'.numberOfInstances = st.numberOfInstances) ∧
    (∀ (st : SpotState) (a b : ℕ), st.numberOfInstances.getD a 0 = 0 →
        reassign_vm st a b = none) ∧
    (∀ (st : SpotState) (a b : ℕ) (st' : SpotState),
        reassign_vm st a b = some st' →
        st'.numberOfInstances.sum = st.numberOfInstances.sum) ∧
    (∀ (ops : List SpotOp) (st st' : SpotState), applyOps st ops = some st' →
        st'.numberOfInstances.sum = st.numberOfInstances.sum ∧
        ((∀ x ∈ st.numberOfInstances, 0 ≤ x) →
          ∀ x ∈ st'.numberOfInstances, 0 ≤ x)) := by
  refine ⟨applyOp_inst_of_not_reassign, ?_, ?_, fun ops => applyOps_inst ops⟩
  · intro st a b h0
    rw [reassign_vm]
    rcases hget : st.numberOfInstances.get? a with _ | cnt
    · rfl
    · rw [Option.some_bind]
      have ha : a < st.numberOfInstances.length := by
        by_contra hc
        rw [List.get?_len_le (le_of_not_lt hc)] at hget
        exact Option.noConfusion hget
      have hc2 : st.numberOfInstances[a] = cnt := by
        rw [List.get?_eq_getElem?, List.getElem?_eq_getElem ha] at hget
        exact Option.some.inj hget
      have hgd := List.getD_eq_getElem st.numberOfInstances 0 ha
      rw [if_pos (show cnt = 0 by omega)]
  · intro st a b st' h
    exact (reassign_vm_effects st a b st' h).1

/-- Closed witness for `instance_conservation`: a concrete one-operation
run and a concrete failing `reassign_vm`. -/
theorem instance_conservation_witness :
    (((getIdleTime_spot spotW 1).2).numberOfInstances.sum =
        spotW.numberOfInstances.sum ∧
      ((∀ x ∈ spotW.numberOfInstances, 0 ≤ x) →
        ∀ x ∈ ((getIdleTime_spot spotW 1).2).numberOfInstances, 0 ≤ x)) ∧
    reassign_vm spotW 0 0 = none :=
  ⟨instance_conservation.2.2.2 [SpotOp.idle 1] spotW _ rfl,
   instance_conservation.2.1 spotW 0 0 rfl⟩

/-! ## C6: auction admission -/

lemma get_available_core_spec (c : CpuInfo) (time : ℚ) :
    (c.get_available_core time).1 = none ∨
      ∃ k, (c.get_available_core time).1 = some k ∧
        (c.get_available_core time).2.2.coreFinishTime.getD k 0 ≤ time := by
  simp only [CpuInfo.get_available_core]
  split
  · right
    exact ⟨_, rfl, by assumption⟩
  · left
    rfl

/-- **C6.**  `admit_task_auction`: after `update_core_status(t)` and the
core scan, if no core has finish time `≤ t` the call returns
`(false, CONGESTION)`; otherwise, with `numFree` freed cores, a utility
below `vmPrices[numFree - 1]` is rejected with CONGESTION, and otherwise
the earliest-available (argmin) core is assigned finish time `t + τ_s`, a
TASK_COMPLETE event at `t + τ_s` is emitted, and the execution is
recorded with `(utility, price)`.  No deadline is consulted anywhere in
this path — the function does not even receive one. -/
theorem admit_task_auction_spec (st : SpotState) (service : ℕ) (time : ℚ)
    (flow_id traffic_class receiver : ℕ) (rtt : ℚ) (sv : Service)
    (hsv : st.services.get? service = some sv) (hτ : 0 ≤ sv.service_time)
    (utility : ℚ)
    (hu : (st.utilities.get? service).bind (fun row => row.get? traffic_class) =
      some utility)
    (prices : List ℚ) (hpr : st.vm_prices = some prices) (price : ℚ)
    (hprice : prices.get?
      (((stAdvanced st time).cpuInfo.get_available_core time).2.1 - 1) = some price) :
    (((stAdvanced st time).cpuInfo.get_available_core time).1 = none →
      admit_task_auction st service time flow_id traffic_class receiver rtt =
        some { accepted := false, code := CONGESTION
               st := { stAdvanced st time with
                       cpuInfo := ((stAdvanced st time).cpuInfo.get_available_core time).2.2 }
               events := [], execs := [] }) ∧
    (∀ core, ((stAdvanced st time).cpuInfo.get_available_core time).1 = some core →
      (utility < price →
        admit_task_auction st service time flow_id traffic_class receiver rtt =
          some { accepted := false, code := CONGESTION
                 st := { stAdvanced st time with
                         cpuInfo := ((stAdvanced st time).cpuInfo.get_available_core time).2.2 }
                 events := [], execs := [] }) ∧
      (price ≤ utility →
        ∃ cpu3,
          ((stAdvanced st time).cpuInfo.get_available_core time).2.2.assign_task_to_core
              core (time + sv.service_time) service = some cpu3 ∧
          admit_task_auction st service time flow_id traffic_class receiver rtt =
            some { accepted := true, code := SUCCESS
                   st := { stAdvanced st time with cpuInfo := cpu3 }
                   events := [{ time := time + sv.service_time, receiver := receiver,
                                service := service, node := st.node, flow_id := flow_id,
                                deadline_or_class := (traffic_class : ℚ),
                                rtt_delay := rtt, status := TASK_COMPLETE }]
                   execs := [ExecRecord.auction time service st.is_cloud traffic_class
                     utility price] })) := by
  constructor
  · intro hnone
    simp only [admit_task_auction, hsv, Option.some_bind]
    rw [hnone]
    rfl
  · intro core hcore
    have hle : ((stAdvanced st time).cpuInfo.get_available_core time).2.2.coreFinishTime.getD
        core 0 ≤ time := by
      rcases get_available_core_spec (stAdvanced st time).cpuInfo time with hn | ⟨k, hk, hkle⟩
      · rw [hn] at hcore
        exact Option.noConfusion hcore
      · rw [hk] at hcore
        obtain rfl := Option.some.inj hcore
        exact hkle
    have hassign : ((stAdvanced st time).cpuInfo.get_available_core time).2.2.assign_task_to_core
        core (time + sv.service_time) service = some
          { ((stAdvanced st time).cpuInfo.get_available_core time).2.2 with
            coreService := (((stAdvanced st time).cpuInfo.get_available_core time).2.2).coreService.set
              core (some service)
            coreFinishTime := (((stAdvanced st time).cpuInfo.get_available_core time).2.2).coreFinishTime.set
              core (time + sv.service_time) } := by
      rw [CpuInfo.assign_task_to_core, if_neg (not_lt.mpr (by linarith))]
    constructor
    · intro hlt
      simp only [admit_task_auction, hsv, Option.some_bind]
      rw [hcore, hu, hpr]
      simp only [Option.some_bind, Option.elim_some]
      rw [hprice]
      simp only [Option.some_bind]
      rw [if_pos hlt]
    · intro hge
      refine ⟨_, hassign, ?_⟩
      simp only [admit_task_auction, hsv, Option.some_bind]
      rw [hcore, hu, hpr]
      simp only [Option.some_bind, Option.elim_some]
      rw [hprice]
      simp only [Option.some_bind]
      rw [if_neg (not_lt.mpr hge), hassign]
      rfl

/-- A priced one-service spot whose single VM costs more than the
utility. -/
def spotB : SpotState :=
  { spotW with vm_prices := some [5] }

/-- Closed witness for `admit_task_auction_spec`: on `spotB` the free-core
count is 1, `utilities[0][0] = 0 < 5 = vmPrices[0]`, and the call is
rejected with CONGESTION. -/
theorem admit_task_auction_spec_witness :
    admit_task_auction spotB 0 1 0 0 0 0 =
      some { accepted := false, code := CONGESTION
             st := { stAdvanced spotB 1 with
                     cpuInfo := ((stAdvanced spotB 1).cpuInfo.get_available_core 1).2.2 }
             events := [], execs := [] } :=
  ((admit_task_auction_spec spotB 0 1 0 0 0 0 ⟨1⟩ rfl (by norm_num) 0 rfl
      [5] rfl 5 rfl).2 0 rfl).1 (by norm_num)

/-! ## C7: the EDF queue stays sorted by deadline, stably -/

lemma map_expiry_of_map_sansFinish {q q' : List Task}
    (h : q.map Task.sansFinish = q'.map Task.sansFinish) :
    q.map Task.expiry = q'.map Task.expiry := by
  have hq : ∀ l : List Task,
      l.map Task.expiry = (l.map Task.sansFinish).map Task.expiry := by
    intro l
    rw [List.map_map]
    rfl
  rw [hq q, hq q', h]

lemma sorted_of_map_expiry_eq {q q' : List Task}
    (h : q.map Task.expiry = q'.map Task.expiry)
    (hs : List.Sorted taskLE q) : List.Sorted taskLE q' := by
  have hs' : (q.map Task.expiry).Pairwise (fun x y : ℚ => x ≤ y) :=
    List.pairwise_map.mpr hs
  rw [h] at hs'
  rw [List.pairwise_map] at hs'
  exact hs'

lemma edfStore_sorted (st : SpotState) (service : ℕ) (time : ℚ)
    (flow_id : ℕ) (deadline : ℚ) (receiver : ℕ) (rtt : ℚ) (serviceTime : ℚ) :
    List.Sorted taskLE
      (edfStore st service time flow_id deadline receiver rtt serviceTime) := by
  have hpairs : List.Sorted pairLE
      (edfPairs st service time flow_id deadline receiver rtt serviceTime) :=
    List.sorted_insertionSort pairLE _
  have hq2 : List.Sorted taskLE
      ((edfPairs st service time flow_id deadline receiver rtt serviceTime).map
        Prod.snd) :=
    List.pairwise_map.mpr hpairs
  have hmap :
      (edfStore st service time flow_id deadline receiver rtt serviceTime).map
          Task.sansFinish =
        ((edfPairs st service time flow_id deadline receiver rtt
            serviceTime).map Prod.snd).map Task.sansFinish :=
    simLoop_map_sansFinish _ _ _ _ _ _ _
  exact sorted_of_map_expiry_eq (map_expiry_of_map_sansFinish hmap).symm hq2

lemma schedule_spot_queue (st : SpotState) (t : ℚ) (out : Option Task × SpotState)
    (h : schedule_spot st t = some out) :
    out.2.taskQueue = st.taskQueue ∨
      ∃ j, out.2.taskQueue = st.taskQueue.eraseIdx j := by
  simp only [schedule_spot] at h
  rcases hg : (st.cpuInfo.get_available_core t).1 with _ | core
  · rw [hg] at h
    obtain rfl := Option.some.inj h
    left
    rfl
  · rw [hg] at h
    rcases hf : st.taskQueue.findIdx?
        (fun tk => placeable st.numberOfInstances
          (st.cpuInfo.get_available_core t).2.2.coreService tk) with _ | j
    · rw [hf] at h
      obtain rfl := Option.some.inj h
      left
      rfl
    · rw [hf] at h
      rcases Option.bind_eq_some.mp h with ⟨cpu2, _, hsome⟩
      obtain rfl := Option.some.inj hsome
      right
      exact ⟨j, rfl⟩

lemma admitSuccess_queue (st : SpotState) (service : ℕ) (time : ℚ)
    (out : AdmitOut) (h : admitSuccess st service time = some out) :
    out.st.taskQueue = st.taskQueue ∨
      ∃ j, out.st.taskQueue = st.taskQueue.eraseIdx j := by
  simp only [admitSuccess] at h
  rcases Option.bind_eq_some.mp h with ⟨nt, hs, hnt⟩
  have hq := schedule_spot_queue _ _ _ hs
  rcases nt with ⟨nt1, st2⟩
  cases nt1 with
  | some newTask =>
    obtain rfl := Option.some.inj hnt
    exact hq
  | none =>
    obtain rfl := Option.some.inj hnt
    exact hq

lemma filter_orderedInsert_key {α : Type _} (key : α → ℚ) (d : ℚ) (a : α)
    (l : List α) :
    (List.orderedInsert (fun x y => key x ≤ key y) a l).filter
        (fun x => decide (key x = d)) =
      if key a = d then a :: l.filter (fun x => decide (key x = d))
      else l.filter (fun x => decide (key x = d)) := by
  induction l with
  | nil =>
    rw [List.orderedInsert, List.filter_cons]
    by_cases had : key a = d <;> simp [had]
  | cons b t ih =>
    rw [List.orderedInsert]
    split
    · by_cases had : key a = d <;> simp [List.filter_cons, had]
    · rename_i hab
      rw [List.filter_cons, ih]
      by_cases had : key a = d
      · have hbd : ¬ key b = d := by
          intro hb
          exact hab (le_of_eq (had.trans hb.symm))
        simp [had, hbd, List.filter_cons]
      · simp [had, List.filter_cons]

lemma filter_insertionSort_key {α : Type _} (key : α → ℚ) (d : ℚ)
    (l : List α) :
    (List.insertionSort (fun x y => key x ≤ key y) l).filter
        (fun x => decide (key x = d)) =
      l.filter (fun x => decide (key x = d)) := by
  induction l with
  | nil => rfl
  | cons a t ih =>
    rw [List.insertionSort, filter_orderedInsert_key, ih, List.filter_cons]
    by_cases had : key a = d <;> simp [had]

/-- **C7.**  After every EDF admission call — whatever its result — the
task queue is sorted by nondecreasing absolute deadline (given it was
sorted before the call, which the no-op branches require), and the stable
sort keeps equal-deadline tasks in insertion order: filtering the sorted
`(original position, task)` pairs at any deadline value returns exactly
the enumerated input order. -/
theorem edf_admission_sorted (st : SpotState) (service : ℕ) (time : ℚ)
    (flow_id : ℕ) (deadline : ℚ) (receiver : ℕ) (rtt : ℚ) (out : AdmitOut)
    (hsorted : List.Sorted taskLE st.taskQueue)
    (h : admit_task_EDF st service time flow_id deadline receiver rtt = some out) :
    List.Sorted taskLE out.st.taskQueue ∧
    (∀ serviceTime d,
      ((edfPairs st service time flow_id deadline receiver rtt
          serviceTime).filter (fun p => decide (p.2.expiry = d))) =
        ((withNewTask st service time flow_id deadline receiver rtt
            serviceTime).enum.filter (fun p => decide (p.2.expiry = d)))) := by
  constructor
  · simp only [admit_task_EDF] at h
    rcases Option.bind_eq_some.mp h with ⟨sv, hsv, hbody⟩
    split at hbody
    · obtain rfl := Option.some.inj hbody
      exact hsorted
    · split at hbody
      · obtain rfl := Option.some.inj hbody
        exact hsorted
      · split at hbody
        · obtain rfl := Option.some.inj hbody
          exact hsorted
        · have hstore := edfStore_sorted st service time flow_id deadline
            receiver rtt sv.service_time
          split at hbody
          · obtain rfl := Option.some.inj hbody
            exact hstore.sublist (List.eraseIdx_sublist _ _)
          · rcases admitSuccess_queue _ _ _ _ hbody with hq | ⟨j, hq⟩
            · rw [hq]
              exact hstore
            · rw [hq]
              exact hstore.sublist (List.eraseIdx_sublist _ _)
  · intro serviceTime d
    exact filter_insertionSort_key (fun p : ℕ × Task => p.2.expiry) d _

/-- Closed witness for `edf_admission_sorted`: admitting into `spotW`
(whose queue is empty, hence sorted) with no instances of the service
returns NO_INSTANCES and an unchanged — still sorted — queue. -/
theorem edf_admission_sorted_witness :
    List.Sorted taskLE
      ({ accepted := false, code := NO_INSTANCES, st := spotW,
         events := [], execs := [] } : AdmitOut).st.taskQueue ∧
    (∀ serviceTime d,
      ((edfPairs spotW 0 1 0 5 0 0 serviceTime).filter
          (fun p => decide (p.2.expiry = d))) =
        ((withNewTask spotW 0 1 0 5 0 0 serviceTime).enum.filter
          (fun p => decide (p.2.expiry = d)))) :=
  edf_admission_sorted spotW 0 1 0 5 0 0 _ (by simp [spotW, ComputationalSpot.init])
    rfl

/- ### The workload driver (scenarios/workload.py, StationaryWorkload.__iter__,
lines 285-350) -/

/-- An entry of the simulation's internal event heap (`model.eventQ`);
`heapq` keeps the earliest `time` at the head, so the heap is modelled as
a time-sorted list with `heappop` taking the head and `eventQ[0]` peeking
at it. -/
structure HEvent where
  time : ℚ
  receiver : ℕ
  service : ℕ
  node : ℕ
  flow_id : ℕ
  traffic_class : ℕ
  rtt_delay : ℚ
  status : ℕ
deriving Repr, DecidableEq

/-- The attribute dictionary of a yielded event (lines 314 and 340). -/
structure YEvent where
  receiver : ℕ
  content : ℕ
  log : Bool
  node : ℕ
  flow_id : ℕ
  traffic_class : ℕ
  rtt_delay : ℚ
  status : ℕ
deriving Repr, DecidableEq

/-- One yielded `(time, event)` pair, annotated with the contents of the
internal heap at the moment of the yield (for a heap event: after its
pop). -/
structure TElem where
  time : ℚ
  ev : YEvent
  heapAfter : List HEvent
deriving Repr, DecidableEq

/-- Static data of the iterator.  The three `random` draws of the loop —
`random.expovariate` (lane refills), `random.random` (class sampling) and
the receiver Zipf variate of the `beta != 0` branch — are oracle streams
indexed by how many draws of that kind have been consumed; the
distribution parameters (`rates`, `beta`) shape the distributions but not
which value sequences are possible. -/
structure WConfig where
  n_services : ℕ
  n_edgeRouters : ℕ
  num_classes : ℕ
  n_warmup : ℕ
  n_measured : ℕ
  rate_cum_dist : List ℚ
  receivers : List ℕ
  beta : ℚ
  expDraw : ℕ → ℚ
  randDraw : ℕ → ℚ
  zipfDraw : ℕ → ℕ

/-- The mutable locals of `__iter__` (lines 287-301) plus the heap and
the oracle cursors. -/
structure WState where
  events : List ℚ
  req_counter : ℕ
  t_event : ℚ
  flow_id : ℕ
  heap : List HEvent
  eIdx : ℕ
  rIdx : ℕ
  zIdx : ℕ

/-- Line 314's event dictionary for a popped heap event. -/
def yieldOfHeap (e : HEvent) (log : Bool) : YEvent :=
  { receiver := e.receiver, content := e.service, log := log, node := e.node,
    flow_id := e.flow_id, traffic_class := e.traffic_class,
    rtt_delay := e.rtt_delay, status := e.status }

/-- The inner drain loop of lines 310-317: pop and yield heap events
*strictly* earlier than `t_event`; returns the yields and the remaining
heap.  `log` is recomputed per pop from the unchanged `req_counter`
(line 313). -/
def drainLoop (n_warmup req_counter : ℕ) (t : ℚ) :
    List HEvent → List TElem × List HEvent
  | [] => ([], [])
  | e :: rest =>
    if e.time < t then
      let p := drainLoop n_warmup req_counter t rest
      ({ time := e.time, ev := yieldOfHeap e (decide (n_warmup ≤ req_counter)),
         heapAfter := rest } :: p.1, p.2)
    else ([], e :: rest)

/-- The class-sampling loop of lines 323-328: the first class whose
cumulative rate strictly exceeds the uniform draw, else class 0 (the
scan runs over `rate_cum_dist`, which `__init__` builds with exactly
`num_classes` entries). -/
def pickClass (dist : List ℚ) (x : ℚ) : ℕ :=
  (dist.findIdx? (fun d => decide (x < d))).getD 0

/-- The outer `while` of lines 302-348, with fuel.  `none` is a run that
is still executing when the fuel runs out or that raised (`min([])` on an
empty lane array, or `IndexError` on the receiver lookup); `some tr` is a
run that reached the `StopIteration` of line 350 after yielding `tr`. -/
def wlLoop (cfg : WConfig) : ℕ → WState → Option (List TElem)
  | 0, _ => none
  | fuel + 1, st =>
    if st.req_counter < cfg.n_warmup + cfg.n_measured ∨ st.heap ≠ [] then
      if st.events = [] then none
      else
        let indx := idxOfMin st.events
        let s := indx % cfg.n_services
        let n := indx / cfg.n_services
        let t := listMin st.events
        let events1 := st.events.set indx
          (st.events.getD indx 0 + cfg.expDraw st.eIdx)
        let dp := drainLoop cfg.n_warmup st.req_counter t st.heap
        let st1 := { st with
                      events := events1
                      t_event := t
                      heap := dp.2
                      eIdx := st.eIdx + 1 }
        if cfg.n_warmup + cfg.n_measured ≤ st.req_counter then
          (wlLoop cfg fuel st1).map (fun tr => dp.1 ++ tr)
        else
          let x := cfg.randDraw st.rIdx
          let tc := pickClass cfg.rate_cum_dist x
          let recvIdx := if cfg.beta = 0 then n * cfg.num_classes + tc
                         else cfg.zipfDraw st.zIdx - 1
          (cfg.receivers.get? recvIdx).bind (fun receiver =>
            let ev : YEvent := {
              receiver := receiver
              content := s
              log := decide (cfg.n_warmup ≤ st.req_counter)
              node := receiver
              flow_id := st.flow_id + 1
              traffic_class := tc
              rtt_delay := 0
              status := REQUEST }
            (wlLoop cfg fuel
                { st1 with
                  flow_id := st.flow_id + 1
                  req_counter := st.req_counter + 1
                  rIdx := st.rIdx + 1
                  zIdx := if cfg.beta = 0 then st.zIdx else st.zIdx + 1 }).map
              (fun tr => dp.1 ++ { time := t, ev := ev, heapAfter := dp.2 } :: tr))
    else some []

/-- Lines 289-301: the lane array starts as `[0.0] * (S*R)` and lane `i`
is bumped by one expovariate draw. -/
def wlInit (cfg : WConfig) (heap0 : List HEvent) : WState :=
  { events := (List.range (cfg.n_services * cfg.n_edgeRouters)).map
      (fun i => 0 + cfg.expDraw i),
    req_counter := 0, t_event := 0, flow_id := 0, heap := heap0,
    eIdx := cfg.n_services * cfg.n_edgeRouters, rIdx := 0, zIdx := 0 }

/-- A whole run of the iterator from a given initial heap. -/
def wlRun (cfg : WConfig) (heap0 : List HEvent) (fuel : ℕ) :
    Option (List TElem) :=
  wlLoop cfg fuel (wlInit cfg heap0)

/-- Number of yielded events whose status is REQUEST. -/
def reqCount (tr : List TElem) : ℕ :=
  (tr.filter (fun el => el.ev.status == REQUEST)).length

/- ### C3: deadline feasibility on admission -/

/-- The loop body of `update_core_status`, named so the per-index effect
of the fold can be characterised. -/
def updStep (time : ℚ) (acc : CpuInfo) (i : ℕ) : CpuInfo :=
  if acc.coreFinishTime.getD i 0 ≤ time then
    let ft := acc.coreFinishTime.set i time
    { acc with
      coreFinishTime := ft
      idleTime := acc.idleTime + (time - ft.getD i 0)
      coreService := acc.coreService.set i none }
  else acc

lemma update_core_status_eq (c : CpuInfo) (t : ℚ) :
    c.update_core_status t =
      (List.range c.coreService.length).foldl (updStep t) c := rfl

lemma updStep_lengths (t : ℚ) (acc : CpuInfo) (i : ℕ) :
    (updStep t acc i).coreFinishTime.length = acc.coreFinishTime.length ∧
    (updStep t acc i).coreService.length = acc.coreService.length := by
  unfold updStep
  split <;> simp

lemma updStep_getD_ne (t : ℚ) (acc : CpuInfo) (i j : ℕ) (hij : i ≠ j) :
    (updStep t acc i).coreFinishTime.getD j 0 = acc.coreFinishTime.getD j 0 ∧
    (updStep t acc i).coreService.getD j none = acc.coreService.getD j none := by
  unfold updStep
  split
  · constructor
    · simp [List.getD_eq_getElem?_getD, List.getElem?_set_ne hij]
    · simp [List.getD_eq_getElem?_getD, List.getElem?_set_ne hij]
  · exact ⟨rfl, rfl⟩

lemma updStep_getD_self (t : ℚ) (acc : CpuInfo) (i : ℕ)
    (hi : i < acc.coreService.length)
    (hlen : acc.coreFinishTime.length = acc.coreService.length) :
    ((acc.coreFinishTime.getD i 0 ≤ t →
      (updStep t acc i).coreFinishTime.getD i 0 = t ∧
      (updStep t acc i).coreService.getD i none = none) ∧
     (¬ acc.coreFinishTime.getD i 0 ≤ t →
      (updStep t acc i).coreFinishTime.getD i 0 = acc.coreFinishTime.getD i 0 ∧
      (updStep t acc i).coreService.getD i none =
        acc.coreService.getD i none)) := by
  constructor
  · intro hle
    unfold updStep
    rw [if_pos hle]
    constructor
    · simp [List.getD_eq_getElem?_getD, List.getElem?_set_self,
        hlen ▸ hi]
    · simp [List.getD_eq_getElem?_getD, List.getElem?_set_self, hi]
  · intro hle
    unfold updStep
    rw [if_neg hle]
    exact ⟨rfl, rfl⟩

lemma updFold_char (t : ℚ) :
    ∀ (l : List ℕ) (c : CpuInfo), l.Nodup →
      (∀ a ∈ l, a < c.coreService.length) →
      c.coreFinishTime.length = c.coreService.length →
      (l.foldl (updStep t) c).coreFinishTime.length =
          c.coreFinishTime.length ∧
      (l.foldl (updStep t) c).coreService.length = c.coreService.length ∧
      (∀ i, i ∉ l →
        (l.foldl (updStep t) c).coreFinishTime.getD i 0 =
          c.coreFinishTime.getD i 0 ∧
        (l.foldl (updStep t) c).coreService.getD i none =
          c.coreService.getD i none) ∧
      (∀ i, i ∈ l →
        (c.coreFinishTime.getD i 0 ≤ t →
          (l.foldl (updStep t) c).coreFinishTime.getD i 0 = t ∧
          (l.foldl (updStep t) c).coreService.getD i none = none) ∧
        (¬ c.coreFinishTime.getD i 0 ≤ t →
          (l.foldl (updStep t) c).coreFinishTime.getD i 0 =
            c.coreFinishTime.getD i 0 ∧
          (l.foldl (updStep t) c).coreService.getD i none =
            c.coreService.getD i none)) := by
  intro l
  induction l with
  | nil =>
    intro c _ _ _
    exact ⟨rfl, rfl, fun i _ => ⟨rfl, rfl⟩,
      fun i hi => absurd hi (List.not_mem_nil i)⟩
  | cons a l2 ih =>
    intro c hnd hbound hlen
    rcases List.nodup_cons.mp hnd with ⟨hna, hnd2⟩
    have ha : a < c.coreService.length := hbound a (List.mem_cons_self a l2)
    have hstepl := updStep_lengths t c a
    have ih2 := ih (updStep t c a) hnd2
      (fun x hx => by
        rw [hstepl.2]
        exact hbound x (List.mem_cons_of_mem a hx))
      (by rw [hstepl.1, hstepl.2, hlen])
    simp only [List.foldl_cons]
    refine ⟨?_, ?_, ?_, ?_⟩
    · rw [ih2.1, hstepl.1]
    · rw [ih2.2.1, hstepl.2]
    · intro i hi
      have hia : a ≠ i := fun he => hi (he ▸ List.mem_cons_self a l2)
      have hil2 : i ∉ l2 := fun hm => hi (List.mem_cons_of_mem a hm)
      have hne := updStep_getD_ne t c a i hia
      have hp := ih2.2.2.1 i hil2
      exact ⟨hp.1.trans hne.1, hp.2.trans hne.2⟩
    · intro i hi
      rcases List.mem_cons.mp hi with rfl | hil2
      · have hnotin := ih2.2.2.1 i hna
        have hself := updStep_getD_self t c i ha hlen
        constructor
        · intro hle
          have h1 := hself.1 hle
          exact ⟨hnotin.1.trans h1.1, hnotin.2.trans h1.2⟩
        · intro hle
          have h1 := hself.2 hle
          exact ⟨hnotin.1.trans h1.1, hnotin.2.trans h1.2⟩
      · have hia : a ≠ i := fun he => hna (he ▸ hil2)
        have hne := updStep_getD_ne t c a i hia
        have hp := ih2.2.2.2 i hil2
        constructor
        · intro hle
          have h1 := hp.1 (by rw [hne.1]; exact hle)
          exact h1
        · intro hle
          have h1 := hp.2 (by rw [hne.1]; exact hle)
          exact ⟨h1.1.trans hne.1, h1.2.trans hne.2⟩

lemma update_core_status_char (c : CpuInfo) (t : ℚ)
    (hlen : c.coreFinishTime.length = c.coreService.length) :
    (c.update_core_status t).coreFinishTime.length =
        c.coreFinishTime.length ∧
    (c.update_core_status t).coreService.length = c.coreService.length ∧
    (∀ i, i < c.coreService.length →
      (c.coreFinishTime.getD i 0 ≤ t →
        (c.update_core_status t).coreFinishTime.getD i 0 = t ∧
        (c.update_core_status t).coreService.getD i none = none) ∧
      (¬ c.coreFinishTime.getD i 0 ≤ t →
        (c.update_core_status t).coreFinishTime.getD i 0 =
          c.coreFinishTime.getD i 0 ∧
        (c.update_core_status t).coreService.getD i none =
          c.coreService.getD i none)) := by
  have h := updFold_char t (List.range c.coreService.length) c
    (List.nodup_range _) (fun a ha => List.mem_range.mp ha) hlen
  rw [update_core_status_eq]
  exact ⟨h.1, h.2.1, fun i hi => h.2.2.2 i (List.mem_range.mpr hi)⟩

lemma count_some_le_of_getD (s : ℕ) :
    ∀ (u v : List (Option ℕ)), v.length = u.length →
      (∀ j, j < u.length → v.getD j none = some s →
        u.getD j none = some s) →
      v.count (some s) ≤ u.count (some s) := by
  intro u
  induction u with
  | nil =>
    intro v hlen _
    rw [List.length_nil, List.length_eq_zero] at hlen
    subst hlen
    exact le_refl _
  | cons a u2 ih =>
    intro v hlen hdom
    rcases v with _ | ⟨b, v2⟩
    · simp
    · have hlen2 : v2.length = u2.length := by simpa using hlen
      have hdom2 : ∀ j, j < u2.length → v2.getD j none = some s →
          u2.getD j none = some s := by
        intro j hj hv
        have h := hdom (j + 1) (by simpa using Nat.succ_lt_succ hj)
          (by simpa [List.getD_cons_succ] using hv)
        simpa [List.getD_cons_succ] using h
      have hih := ih v2 hlen2 hdom2
      have hhead : b = some s → a = some s := by
        intro hb
        have h := hdom 0 (Nat.succ_pos _)
          (by simpa [List.getD_cons_zero] using hb)
        simpa [List.getD_cons_zero] using h
      simp only [List.count_cons]
      by_cases hb : b = some s
      · have ha := hhead hb
        simp only [hb, ha, beq_self_eq_true, if_true]
        omega
      · by_cases ha : a = some s <;>
          simp [hb, ha] <;> omega

lemma count_some_lt_of_getD (s : ℕ) :
    ∀ (u v : List (Option ℕ)), v.length = u.length →
      (∀ j, j < u.length → v.getD j none = some s →
        u.getD j none = some s) →
      ∀ j0, j0 < u.length → u.getD j0 none = some s →
        v.getD j0 none = none →
        v.count (some s) < u.count (some s) := by
  intro u
  induction u with
  | nil =>
    intro v _ _ j0 h0 _ _
    exact absurd h0 (Nat.not_lt_zero _)
  | cons a u2 ih =>
    intro v hlen hdom j0 hj0 hu0 hv0
    rcases v with _ | ⟨b, v2⟩
    · simp at hlen
    · have hlen2 : v2.length = u2.length := by simpa using hlen
      have hdom2 : ∀ j, j < u2.length → v2.getD j none = some s →
          u2.getD j none = some s := by
        intro j hj hv
        have h := hdom (j + 1) (by simpa using Nat.succ_lt_succ hj)
          (by simpa [List.getD_cons_succ] using hv)
        simpa [List.getD_cons_succ] using h
      have hhead : b = some s → a = some s := by
        intro hb
        have h := hdom 0 (Nat.succ_pos _)
          (by simpa [List.getD_cons_zero] using hb)
        simpa [List.getD_cons_zero] using h
      cases j0 with
      | zero =>
        have ha : a = some s := by
          simpa [List.getD_cons_zero] using hu0
        have hb : b = none := by
          simpa [List.getD_cons_zero] using hv0
        have hle := count_some_le_of_getD s u2 v2 hlen2 hdom2
        simp only [List.count_cons, ha, hb, beq_self_eq_true, if_true,
          beq_iff_eq, reduceCtorEq, if_false]
        omega
      | succ k =>
        have hk : k < u2.length := by simpa using hj0
        have hu0s : u2.getD k none = some s := by
          simpa [List.getD_cons_succ] using hu0
        have hv0s : v2.getD k none = none := by
          simpa [List.getD_cons_succ] using hv0
        have hlt := ih v2 hlen2 hdom2 k hk hu0s hv0s
        simp only [List.count_cons]
        by_cases hb : b = some s
        · have ha := hhead hb
          simp only [hb, ha, beq_self_eq_true, if_true]
          omega
        · by_cases ha : a = some s <;>
            simp [hb, ha] <;> omega

lemma update_busy_lt (c : CpuInfo) (t : ℚ) (s : ℕ) (core : ℕ)
    (hlen : c.coreFinishTime.length = c.coreService.length)
    (hcore : core < c.coreService.length)
    (hsvc : c.coreService.getD core none = some s)
    (ht : c.coreFinishTime.getD core 0 ≤ t) :
    (c.update_core_status t).coreService.count (some s) <
      c.coreService.count (some s) := by
  have hch := update_core_status_char c t hlen
  refine count_some_lt_of_getD s c.coreService
    ((c.update_core_status t).coreService) (by rw [hch.2.1]) ?_ core hcore
    hsvc ((hch.2.2 core hcore).1 ht).2
  intro j hj hv
  by_cases hle : c.coreFinishTime.getD j 0 ≤ t
  · rw [((hch.2.2 j hj).1 hle).2] at hv
    exact absurd hv (by simp)
  · rw [((hch.2.2 j hj).2 hle).2] at hv
    exact hv

lemma getD_mem_of_lt (l : List ℕ) (j : ℕ) (h : j < l.length) :
    l.getD j 0 ∈ l := by
  rw [List.getD_eq_getElem l 0 h]
  exact List.getElem_mem h

lemma mem_eraseIdx_of_ne :
    ∀ (l : List ℕ) (j : ℕ), j < l.length →
      ∀ x ∈ l, x ≠ l.getD j 0 → x ∈ l.eraseIdx j := by
  intro l
  induction l with
  | nil =>
    intro j hj
    simp at hj
  | cons a l2 ih =>
    intro j hj x hx hne
    cases j with
    | zero =>
      rcases List.mem_cons.mp hx with rfl | hm
      · simp [List.getD_cons_zero] at hne
      · exact hm
    | succ k =>
      have hk : k < l2.length := by simpa using hj
      rcases List.mem_cons.mp hx with rfl | hm
      · exact List.mem_cons_self _ _
      · have hne2 : x ≠ l2.getD k 0 := by
          simpa [List.getD_cons_succ] using hne
        exact List.mem_cons_of_mem a (ih k hk x hm hne2)

lemma placeable_false (inst : List ℤ) (cs : List (Option ℕ)) (tk : Task)
    (h : placeable inst cs tk = false) :
    1 ≤ cs.count (some tk.service) := by
  unfold placeable at h
  split at h
  · rename_i hpos
    have h2 := of_decide_eq_false h
    have h3 : (inst.getD tk.service 0 : ℤ) -
        (cs.count (some tk.service) : ℤ) ≤ 0 := by
      exact le_of_not_lt (fun hc => h2 hc)
    have h4 : (1 : ℤ) ≤ (cs.count (some tk.service) : ℤ) := by omega
    exact_mod_cast h4
  · exact absurd h (by simp)

lemma findIdx_some_service (cs : List (Option ℕ)) (s : ℕ)
    (h : 1 ≤ cs.count (some s)) :
    cs.findIdx (fun x => x == some s) < cs.length ∧
    cs.getD (cs.findIdx (fun x => x == some s)) none = some s := by
  have hmem : some s ∈ cs := List.count_pos_iff.mp (by omega)
  have hlt : cs.findIdx (fun x => x == some s) < cs.length :=
    List.findIdx_lt_length_of_exists ⟨some s, hmem, by simp⟩
  refine ⟨hlt, ?_⟩
  rw [List.getD_eq_getElem cs none hlt]
  have hb := List.findIdx_getElem (p := fun x => x == some s) (w := hlt)
  exact beq_iff_eq.mp hb

lemma simLoop_completes (inst : List ℤ) :
    ∀ (fuel : ℕ) (store : List Task) (work : List ℕ) (cpu : CpuInfo)
      (core : ℕ) (sf : Bool),
      cpu.coreFinishTime.length = cpu.coreService.length →
      (∀ i ∈ work, i < store.length) →
      (∀ tk ∈ store, 0 ≤ tk.exec_time) →
      (∀ i, i < store.length → i ∉ work →
        ((store.getD i default).finishTime).isSome = true) →
      (sf = true →
        core < cpu.coreService.length ∧
        cpu.coreService.getD core none =
          some ((store.getD (work.getD (work.length - 1) 0)
            default).service)) →
      (cpu.coreService.length + 2) * work.length +
          (if sf = true then
            cpu.coreService.count
              (some ((store.getD (work.getD (work.length - 1) 0)
                default).service))
          else cpu.coreService.length + 1) < fuel →
      (simLoop inst fuel store work cpu core sf).length = store.length ∧
      (∀ i, i < store.length →
        (((simLoop inst fuel store work cpu core sf).getD i
          default).finishTime).isSome = true) := by
  intro fuel
  induction fuel with
  | zero =>
    intro store work cpu core sf _ _ _ _ _ hfuel
    exact absurd hfuel (Nat.not_lt_zero _)
  | succ fuel ih =>
    intro store work cpu core sf hlen hwork hexec hfill hsf hfuel
    by_cases hw : work.isEmpty
    · simp only [simLoop, if_pos hw]
      have hwe : work = [] := List.isEmpty_iff.mp hw
      exact ⟨trivial, fun i hi => hfill i hi (by simp [hwe])⟩
    · have hwne : work ≠ [] := fun h => hw (by simp [h])
      have hW1 : 1 ≤ work.length := by
        cases work
        · exact absurd rfl hwne
        · simp
      simp only [simLoop, if_neg hw]
      obtain ⟨corex, hcorex⟩ :
          ∃ cx, (if sf = true then core
            else cpu.get_next_available_core) = cx := ⟨_, rfl⟩
      rw [hcorex]
      set timex := cpu.coreFinishTime.getD corex 0 with htimex
      set cpu1 := cpu.update_core_status timex with hcpu1
      have hch0 := update_core_status_char cpu timex hlen
      rw [← hcpu1] at hch0
      have hlen1 : cpu1.coreFinishTime.length = cpu1.coreService.length := by
        rw [hch0.1, hch0.2.1]
        exact hlen
      have hC1 : cpu1.coreService.length = cpu.coreService.length := hch0.2.1
      rcases hfp : findPlaceIdx inst cpu1.coreService store work with _ | j
      · -- the for-else of lines 313-315: schedule failed
        simp only [Option.elim_none]
        have hfp2 := hfp
        simp only [findPlaceIdx] at hfp2
        have hall := List.findIdx?_eq_none_iff.mp hfp2
        have hplf : placeable inst cpu1.coreService
            (store.getD (work.getD (work.length - 1) 0) default) = false :=
          hall _ (getD_mem_of_lt work (work.length - 1) (by omega))
        have hcnt := placeable_false _ _ _ hplf
        have hfind := findIdx_some_service cpu1.coreService
          ((store.getD (work.getD (work.length - 1) 0) default).service) hcnt
        refine ih store work cpu1 _ true hlen1 hwork hexec hfill
          (fun _ => ⟨hfind.1, hfind.2⟩) ?_
        simp only [eq_self_iff_true, if_true]
        rw [hC1]
        by_cases hsfb : sf = true
        · obtain ⟨hclt, hcsv⟩ := hsf hsfb
          rw [if_pos hsfb] at hcorex
          have hdec : cpu1.coreService.count
              (some ((store.getD (work.getD (work.length - 1) 0)
                default).service)) <
              cpu.coreService.count
                (some ((store.getD (work.getD (work.length - 1) 0)
                  default).service)) := by
            rw [hcpu1]
            refine update_busy_lt cpu timex _ core hlen hclt hcsv ?_
            rw [htimex, ← hcorex]
          rw [if_pos hsfb] at hfuel
          omega
        · rw [if_neg hsfb] at hfuel
          have hle := List.count_le_length
            (some ((store.getD (work.getD (work.length - 1) 0)
              default).service)) cpu1.coreService
          rw [hC1] at hle
          omega
      · -- a task is placed
        simp only [Option.elim_some]
        have hfp2 := hfp
        simp only [findPlaceIdx] at hfp2
        have hji : j < work.length :=
          (List.findIdx?_eq_some_iff_findIdx_eq.mp hfp2).1
        set i := work.getD j 0 with hidef
        set tk := store.getD i default with htkdef
        set fin := timex + tk.exec_time with hfindef
        have hii : i < store.length := hwork i (by
          rw [hidef]
          exact getD_mem_of_lt work j hji)
        have htkmem : tk ∈ store := by
          rw [htkdef, List.getD_eq_getElem store default hii]
          exact List.getElem_mem hii
        have hexectk : 0 ≤ tk.exec_time := hexec tk htkmem
        have hfin1 : cpu1.coreFinishTime.getD corex 0 ≤ timex := by
          by_cases hcx : corex < cpu.coreService.length
          · exact le_of_eq ((hch0.2.2 corex hcx).1 (le_of_eq htimex.symm)).1
          · push_neg at hcx
            have hlf : cpu1.coreFinishTime.length ≤ corex := by
              rw [hch0.1, hlen]
              exact hcx
            rw [List.getD_eq_default _ _ hlf, htimex]
            have hlf0 : cpu.coreFinishTime.length ≤ corex := by
              rw [hlen]
              exact hcx
            rw [List.getD_eq_default _ _ hlf0]
        have hnotlt : ¬ fin < cpu1.coreFinishTime.getD corex 0 := by
          rw [hfindef]
          intro hc
          have hcc : timex + tk.exec_time < timex := lt_of_lt_of_le hc hfin1
          linarith
        have hassign : cpu1.assign_task_to_core corex fin tk.service =
            some { cpu1 with
              coreService := cpu1.coreService.set corex (some tk.service)
              coreFinishTime := cpu1.coreFinishTime.set corex fin } := by
          unfold CpuInfo.assign_task_to_core
          rw [if_neg hnotlt]
        rw [hassign]
        simp only [Option.elim_some]
        obtain ⟨W1, hW1⟩ : ∃ w1, work.length = w1 + 1 :=
          ⟨work.length - 1, by omega⟩
        have hres := ih (store.set i { tk with finishTime := some fin })
          (work.eraseIdx j)
          { cpu1 with
            coreService := cpu1.coreService.set corex (some tk.service)
            coreFinishTime := cpu1.coreFinishTime.set corex fin }
          corex false
          (by simpa using hlen1)
          (by
            intro x hx
            rw [List.length_set]
            exact hwork x ((List.eraseIdx_sublist work j).mem hx))
          (by
            intro x hx
            rcases List.mem_or_eq_of_mem_set hx with hx2 | rfl
            · exact hexec x hx2
            · exact hexectk)
          (by
            intro i2 hi2 hni2
            rw [List.length_set] at hi2
            by_cases hie : i2 = i
            · rw [hie]
              have hgd : (store.set i
                  { tk with finishTime := some fin }).getD i default =
                  { tk with finishTime := some fin } := by
                simp [List.getD_eq_getElem?_getD, List.getElem?_set_self, hii]
              rw [hgd]
              rfl
            · have hgd : (store.set i
                  { tk with finishTime := some fin }).getD i2 default =
                  store.getD i2 default := by
                have hii2 : i ≠ i2 := fun h => hie h.symm
                simp [List.getD_eq_getElem?_getD, List.getElem?_set_ne hii2]
              rw [hgd]
              refine hfill i2 hi2 ?_
              intro hmem
              refine hni2 (mem_eraseIdx_of_ne work j hji i2 hmem ?_)
              rw [← hidef]
              exact hie)
          (by
            intro h
            exact absurd h (by simp))
          (by
            rw [if_neg (by simp : ¬ ((false : Bool) = true))]
            rw [List.length_set, hC1, List.length_eraseIdx_of_lt hji, hW1]
            rw [hW1, Nat.mul_succ] at hfuel
            simp only [Nat.add_sub_cancel]
            omega)
        constructor
        · rw [hres.1, List.length_set]
        · intro i2 hi2
          exact hres.2 i2 (by rw [List.length_set]; exact hi2)


/-- The dry-run fuel of `simQueue` is sufficient: the simulation places
every task, so every entry of the simulated queue carries a computed
finish time (as the source's unbounded loop guarantees on any returning
call). -/
lemma simQueue_filled (st : SpotState) (queue : List Task)
    (hlen : st.cpuInfo.coreFinishTime.length =
      st.cpuInfo.coreService.length)
    (hexec : ∀ tk ∈ queue, 0 ≤ tk.exec_time) :
    ∀ i, i < (simQueue st queue).length →
      (((simQueue st queue).getD i default).finishTime).isSome = true := by
  have h := simLoop_completes st.numberOfInstances
    ((st.cpuInfo.coreService.length + 2) * (queue.length + 1)) queue
    (List.range queue.length) st.cpuInfo 0 false hlen
    (fun i hi => List.mem_range.mp hi)
    hexec
    (fun i hi hni => absurd (List.mem_range.mpr hi) hni)
    (fun hx => absurd hx (by simp))
    (by
      rw [List.length_range]
      rw [if_neg (by simp : ¬ ((false : Bool) = true))]
      rw [Nat.mul_succ]
      omega)
  intro i hi
  refine h.2 i ?_
  have hl : (simQueue st queue).length = queue.length := h.1
  rw [← hl]
  exact hi

lemma stAdvanced_cpu_len (st : SpotState) (time : ℚ)
    (h : st.cpuInfo.coreFinishTime.length = st.cpuInfo.coreService.length) :
    (stAdvanced st time).cpuInfo.coreFinishTime.length =
      (stAdvanced st time).cpuInfo.coreService.length := by
  have hch := update_core_status_char st.cpuInfo time h
  show (st.cpuInfo.update_core_status time).coreFinishTime.length =
    (st.cpuInfo.update_core_status time).coreService.length
  rw [hch.1, hch.2.1]
  exact h

lemma withNewTask_exec_nonneg (st : SpotState) (service : ℕ) (time : ℚ)
    (flow_id : ℕ) (deadline : ℚ) (receiver : ℕ) (rtt : ℚ) (sv : Service)
    (hsv : st.services.get? service = some sv)
    (hq : ∀ tk ∈ st.taskQueue, 0 ≤ tk.exec_time)
    (hsvc : ∀ s ∈ st.services, 0 ≤ s.service_time) :
    ∀ tk ∈ withNewTask st service time flow_id deadline receiver rtt
      sv.service_time, 0 ≤ tk.exec_time := by
  intro tk htk
  rcases List.mem_append.mp htk with h1 | h1
  · exact hq tk h1
  · have htk2 : tk = mkTask st service time flow_id deadline receiver rtt
        sv.service_time := by
      simpa using h1
    rw [htk2]
    exact hsvc sv (List.get?_mem hsv)

lemma edfQueue_exec_nonneg (st : SpotState) (service : ℕ) (time : ℚ)
    (flow_id : ℕ) (deadline : ℚ) (receiver : ℕ) (rtt : ℚ) (sv : Service)
    (hsv : st.services.get? service = some sv)
    (hq : ∀ tk ∈ st.taskQueue, 0 ≤ tk.exec_time)
    (hsvc : ∀ s ∈ st.services, 0 ≤ s.service_time) :
    ∀ tk ∈ (edfPairs st service time flow_id deadline receiver rtt
      sv.service_time).map Prod.snd, 0 ≤ tk.exec_time := by
  intro tk htk
  have hperm : List.Perm
      ((edfPairs st service time flow_id deadline receiver rtt
        sv.service_time).map Prod.snd)
      ((withNewTask st service time flow_id deadline receiver rtt
        sv.service_time).enum.map Prod.snd) :=
    (List.perm_insertionSort pairLE _).map Prod.snd
  rw [List.enum_map_snd] at hperm
  exact withNewTask_exec_nonneg st service time flow_id deadline receiver
    rtt sv hsv hq hsvc tk (hperm.mem_iff.mp htk)

lemma violates_false_bound (t : Task) (h : violates t = false) (f : ℚ)
    (hf : t.finishTime = some f) : f ≤ t.expiry - t.rtt_delay := by
  unfold violates at h
  rw [hf] at h
  have := of_decide_eq_false h
  linarith

lemma store_no_violation (store : List Task) (hv : store.any violates = false)
    (t : Task) (ht : t ∈ store) : violates t = false := by
  rw [List.any_eq_false] at hv
  exact Bool.eq_false_iff.mpr (hv t ht)

lemma admitSuccess_filled (st : SpotState) (service : ℕ) (time : ℚ)
    (out : AdmitOut) (h : admitSuccess st service time = some out)
    (hv : st.taskQueue.any violates = false)
    (hfill : ∀ i, i < st.taskQueue.length →
      ((st.taskQueue.getD i default).finishTime).isSome = true) :
    ∀ t ∈ out.st.taskQueue, ∃ f : ℚ, t.finishTime = some f ∧
      f ≤ t.expiry - t.rtt_delay := by
  intro t ht
  have hmem : t ∈ st.taskQueue := by
    rcases admitSuccess_queue _ _ _ _ h with hq2 | ⟨j, hq2⟩
    · rw [hq2] at ht
      exact ht
    · rw [hq2] at ht
      exact (List.eraseIdx_sublist _ j).mem ht
  obtain ⟨n, hn, hnt⟩ := List.getElem_of_mem hmem
  have hisS := hfill n hn
  rw [List.getD_eq_getElem _ default hn, hnt] at hisS
  obtain ⟨f, hf⟩ := Option.isSome_iff_exists.mp hisS
  exact ⟨f, hf, violates_false_bound t (store_no_violation _ hv t hmem) f hf⟩

/-- **C3.**  Deadline feasibility on admission, for every FIFO or EDF
`admit_task` call, under the constraints every constructor-built state
satisfies (the two per-core lists have equal length and all service
times, hence all queued execution times, are nonnegative).  (i) If the
call reports SUCCESS, every task still in the queue has a finish time
computed by the dry-run simulation — which, with the proven-sufficient
fuel of `simQueue`, places every task just as the source's unbounded
loop does — and it satisfies `finishTime ≤ expiry − rtt_delay`, since
the scan of lines 513-522 / 575-584 rejected any violator.
(ii)/(iii) If after the dry-run simulation some queued task violates the
inequality, the call bumps `missed_requests[service]`, removes the newly
appended task (last position for FIFO; the tracked sorted position for
EDF) and returns `(False, CONGESTION)`. -/
theorem admission_deadline_feasibility (st : SpotState) (service : ℕ) (time : ℚ)
    (flow_id : ℕ) (deadline : ℚ) (receiver : ℕ) (rtt : ℚ) (out : AdmitOut)
    (hcpu : st.cpuInfo.coreFinishTime.length = st.cpuInfo.coreService.length)
    (hq : ∀ tk ∈ st.taskQueue, 0 ≤ tk.exec_time)
    (hsvc : ∀ s ∈ st.services, 0 ≤ s.service_time)
    (h : admit_task st service time flow_id deadline receiver rtt = some out) :
    (out.code = SUCCESS →
      ∀ t ∈ out.st.taskQueue, ∃ f : ℚ, t.finishTime = some f ∧
        f ≤ t.expiry - t.rtt_delay) ∧
    (∀ sv, st.services.get? service = some sv → st.is_cloud = false →
      st.sched_policy = "FIFO" → ¬ st.numberOfInstances.getD service 0 = 0 →
      (fifoStore st service time flow_id deadline receiver rtt
          sv.service_time).any violates = true →
      out.accepted = false ∧ out.code = CONGESTION ∧
      out.st.taskQueue = (fifoStore st service time flow_id deadline receiver rtt
          sv.service_time).dropLast ∧
      out.st.missed_requests = st.missed_requests.set service
        (st.missed_requests.getD service 0 + 1)) ∧
    (∀ sv, st.services.get? service = some sv → st.is_cloud = false →
      st.sched_policy = "EDF" → ¬ st.numberOfInstances.getD service 0 = 0 →
      ¬ deadline - time - rtt - sv.service_time < 0 →
      (edfStore st service time flow_id deadline receiver rtt
          sv.service_time).any violates = true →
      out.accepted = false ∧ out.code = CONGESTION ∧
      out.st.taskQueue = (edfStore st service time flow_id deadline receiver rtt
          sv.service_time).eraseIdx
        (edfAPos st service time flow_id deadline receiver rtt sv.service_time) ∧
      out.st.missed_requests = st.missed_requests.set service
        (st.missed_requests.getD service 0 + 1)) := by
  refine ⟨?_, ?_, ?_⟩
  · intro hcode t ht
    simp only [admit_task] at h
    split at h
    · simp only [admit_task_EDF] at h
      rcases Option.bind_eq_some.mp h with ⟨sv, hsv, hbody⟩
      split at hbody
      · obtain rfl := Option.some.inj hbody
        exact absurd (show (3 : Nat) = 2 from hcode) (by decide)
      · split at hbody
        · obtain rfl := Option.some.inj hbody
          exact absurd (show (4 : Nat) = 2 from hcode) (by decide)
        · split at hbody
          · obtain rfl := Option.some.inj hbody
            exact absurd (show (0 : Nat) = 2 from hcode) (by decide)
          · split at hbody
            · obtain rfl := Option.some.inj hbody
              exact absurd (show (1 : Nat) = 2 from hcode) (by decide)
            · rename_i hnv
              have hfillq := simQueue_filled (stAdvanced st time)
                ((edfPairs st service time flow_id deadline receiver rtt
                  sv.service_time).map Prod.snd)
                (stAdvanced_cpu_len st time hcpu)
                (edfQueue_exec_nonneg st service time flow_id deadline
                  receiver rtt sv hsv hq hsvc)
              have hs := admitSuccess_filled _ _ _ _ hbody
                (Bool.eq_false_iff.mpr hnv) hfillq
              exact hs t ht
    · split at h
      · simp only [admit_task_FIFO] at h
        rcases Option.bind_eq_some.mp h with ⟨sv, hsv, hbody⟩
        split at hbody
        · obtain rfl := Option.some.inj hbody
          exact absurd (show (3 : Nat) = 2 from hcode) (by decide)
        · split at hbody
          · obtain rfl := Option.some.inj hbody
            exact absurd (show (4 : Nat) = 2 from hcode) (by decide)
          · split at hbody
            · obtain rfl := Option.some.inj hbody
              exact absurd (show (1 : Nat) = 2 from hcode) (by decide)
            · rename_i hnv
              have hfillq := simQueue_filled (stAdvanced st time)
                (withNewTask st service time flow_id deadline receiver rtt
                  sv.service_time)
                (stAdvanced_cpu_len st time hcpu)
                (withNewTask_exec_nonneg st service time flow_id deadline
                  receiver rtt sv hsv hq hsvc)
              have hs := admitSuccess_filled _ _ _ _ hbody
                (Bool.eq_false_iff.mpr hnv) hfillq
              exact hs t ht
      · exact Option.noConfusion h
  · intro sv hsv hcl hpol hinst hany
    have hne : ¬ st.sched_policy = "EDF" := by
      rw [hpol]
      decide
    have hncl : ¬ st.is_cloud = true := by
      rw [hcl]
      decide
    simp only [admit_task] at h
    rw [if_neg hne, if_pos hpol] at h
    simp only [admit_task_FIFO] at h
    rw [hsv] at h
    simp only [Option.some_bind] at h
    rw [if_neg hncl, if_neg hinst, if_pos hany] at h
    obtain rfl := Option.some.inj h
    exact ⟨rfl, rfl, rfl, rfl⟩
  · intro sv hsv hcl hpol hinst hdl hany
    have hncl : ¬ st.is_cloud = true := by
      rw [hcl]
      decide
    simp only [admit_task] at h
    rw [if_pos hpol] at h
    simp only [admit_task_EDF] at h
    rw [hsv] at h
    simp only [Option.some_bind] at h
    rw [if_neg hncl, if_neg hinst, if_neg hdl, if_pos hany] at h
    obtain rfl := Option.some.inj h
    exact ⟨rfl, rfl, rfl, rfl⟩

def t0C3 : Task :=
  { service := 0
    time := 0
    expiry := 5
    rtt_delay := 0
    exec_time := 1
    node := 0
    flow_id := 5
    receiver := 0
    finishTime := none }

def spotC3 : SpotState :=
  { spotW with numberOfInstances := [1], taskQueue := [t0C3] }

def tNew0C3 : Task :=
  { service := 0
    time := 1
    expiry := 6
    rtt_delay := 0
    exec_time := 1
    node := 0
    flow_id := 0
    receiver := 0
    finishTime := none }

def tNewC3 : Task :=
  { tNew0C3 with finishTime := some 3 }

def t0FinC3 : Task :=
  { t0C3 with finishTime := some 2 }

def cpuAdvC3 : CpuInfo :=
  { numOfCores := 1
    coreFinishTime := [1]
    coreService := [none]
    idleTime := 0 }

def outC3 : AdmitOut :=
  { accepted := true
    code := SUCCESS
    st := { spotC3 with
            cpuInfo := { numOfCores := 1
                         coreFinishTime := [2]
                         coreService := [some 0]
                         idleTime := 0 }
            taskQueue := [tNewC3]
            running_requests := [1] }
    events := [{ time := 2
                 receiver := 0
                 service := 0
                 node := 0
                 flow_id := 5
                 deadline_or_class := 5
                 rtt_delay := 0
                 status := TASK_COMPLETE }]
    execs := [.plain 5 0 0 1 false] }

lemma hstAdvC3 : stAdvanced spotC3 1 = { spotC3 with cpuInfo := cpuAdvC3 } := by
  norm_num [stAdvanced, spotC3, spotW, ComputationalSpot.init, CpuInfo.init,
    CpuInfo.update_core_status, List.range_succ, cpuAdvC3]

lemma hwntC3 : withNewTask spotC3 0 1 0 6 0 0 1 = [t0C3, tNew0C3] := by
  norm_num [withNewTask, mkTask, spotC3, spotW, ComputationalSpot.init,
    t0C3, tNew0C3]

lemma hpairsC3 : edfSortPairs [t0C3, tNew0C3] = [(0, t0C3), (1, tNew0C3)] := by
  norm_num [edfSortPairs, List.insertionSort, List.orderedInsert, pairLE,
    t0C3, tNew0C3, List.enum, List.enumFrom]

def cpuS1C3 : CpuInfo :=
  { numOfCores := 1
    coreFinishTime := [2]
    coreService := [some 0]
    idleTime := 0 }

def cpuS2C3 : CpuInfo :=
  { numOfCores := 1
    coreFinishTime := [3]
    coreService := [some 0]
    idleTime := 0 }

lemma hsim1C3 (fu : ℕ) :
    simLoop [1] (fu + 1) [t0C3, tNew0C3] [0, 1] cpuAdvC3 0 false =
      simLoop [1] fu [t0FinC3, tNew0C3] [1] cpuS1C3 0 false := by
  norm_num [simLoop, cpuAdvC3, cpuS1C3, t0C3, tNew0C3, t0FinC3, findPlaceIdx,
    placeable, CpuInfo.update_core_status, CpuInfo.get_next_available_core,
    CpuInfo.assign_task_to_core, idxOfMin, List.range_succ, List.eraseIdx,
    List.findIdx_cons, List.findIdx_nil, List.count_cons, List.count_nil]

lemma hsim2C3 (fu : ℕ) :
    simLoop [1] (fu + 1) [t0FinC3, tNew0C3] [1] cpuS1C3 0 false =
      simLoop [1] fu [t0FinC3, tNewC3] [] cpuS2C3 0 false := by
  norm_num [simLoop, cpuS1C3, cpuS2C3, t0C3, tNew0C3, t0FinC3, tNewC3,
    findPlaceIdx, placeable, CpuInfo.update_core_status,
    CpuInfo.get_next_available_core, CpuInfo.assign_task_to_core, idxOfMin,
    List.range_succ, List.eraseIdx, List.findIdx_cons, List.findIdx_nil,
    List.count_cons, List.count_nil]

lemma hsim3C3 (fu : ℕ) (inst : List ℤ) (store : List Task) (cpu : CpuInfo)
    (c : ℕ) (b : Bool) : simLoop inst (fu + 1) store [] cpu c b = store := by
  simp [simLoop]

lemma hsimC3 : simQueue { spotC3 with cpuInfo := cpuAdvC3 } [t0C3, tNew0C3] =
    [t0FinC3, tNewC3] := by
  calc simQueue { spotC3 with cpuInfo := cpuAdvC3 } [t0C3, tNew0C3]
      = simLoop [1] (8 + 1) [t0C3, tNew0C3] [0, 1] cpuAdvC3 0 false := rfl
    _ = simLoop [1] 8 [t0FinC3, tNew0C3] [1] cpuS1C3 0 false := hsim1C3 8
    _ = simLoop [1] (7 + 1) [t0FinC3, tNew0C3] [1] cpuS1C3 0 false := rfl
    _ = simLoop [1] 7 [t0FinC3, tNewC3] [] cpuS2C3 0 false := hsim2C3 7
    _ = simLoop [1] (6 + 1) [t0FinC3, tNewC3] [] cpuS2C3 0 false := rfl
    _ = [t0FinC3, tNewC3] := hsim3C3 6 _ _ _ _ _

lemma hstoreC3 : edfStore spotC3 0 1 0 6 0 0 1 = [t0FinC3, tNewC3] := by
  rw [edfStore, edfPairs, hwntC3, hpairsC3, hstAdvC3]
  rw [show ([(0, t0C3), (1, tNew0C3)] : List (ℕ × Task)).map Prod.snd =
    [t0C3, tNew0C3] from rfl]
  exact hsimC3

lemma hanyC3 : ([t0FinC3, tNewC3].any violates) = false := by
  norm_num [violates, t0FinC3, tNewC3, t0C3, tNew0C3]

lemma hrunC3 : spotC3.running_requests = [0] := rfl

lemma hnodeC3 : spotC3.node = 0 := rfl

lemma hclC3 : spotC3.is_cloud = false := rfl

set_option maxHeartbeats 1600000 in
lemma spotC3_admit : admit_task spotC3 0 1 0 6 0 0 = some outC3 := by
  have hpol : spotC3.sched_policy = "EDF" := rfl
  have hsv : spotC3.services.get? 0 = some { service_time := 1 } := rfl
  have hncl : ¬ spotC3.is_cloud = true := by decide
  have hninst : ¬ spotC3.numberOfInstances.getD 0 0 = 0 := by decide
  have hdl : ¬ ((6 : ℚ) - 1 - 0 -
      ({ service_time := 1 } : Service).service_time < 0) := by
    show ¬ ((6 : ℚ) - 1 - 0 - 1 < 0)
    norm_num
  have hvcond : ¬ ((edfStore spotC3 0 1 0 6 0 0
      ({ service_time := 1 } : Service).service_time).any violates = true) := by
    show ¬ ((edfStore spotC3 0 1 0 6 0 0 1).any violates = true)
    rw [hstoreC3, hanyC3]
    exact Bool.false_ne_true
  simp only [admit_task]
  rw [if_pos hpol]
  simp only [admit_task_EDF]
  rw [hsv]
  simp only [Option.some_bind]
  rw [if_neg hncl, if_neg hninst, if_neg hdl, if_neg hvcond]
  rw [hstAdvC3]
  rw [show (edfStore spotC3 0 1 0 6 0 0
      ({ service_time := 1 } : Service).service_time) = [t0FinC3, tNewC3]
    from hstoreC3]
  norm_num [admitSuccess, schedule_spot, CpuInfo.get_available_core,
    CpuInfo.assign_task_to_core, placeable, idxOfMin, outC3, cpuAdvC3,
    t0C3, tNew0C3, t0FinC3, tNewC3, hrunC3, hnodeC3, hclC3,
    List.range_succ, List.eraseIdx, List.count_cons, List.count_nil,
    List.findIdx_cons, List.findIdx_nil, Option.elim_some, Option.elim_none,
    SUCCESS, TASK_COMPLETE]

/-- Closed witness for `admission_deadline_feasibility`: a genuine EDF
SUCCESS admission.  `spotC3` has one core, one instance of the single
service (`service_time` 1) and a task (deadline 5) already queued; the
admitted task (arrival 1, deadline 6) is simulated to finish at 3, the
queued one at 2, nothing violates, the scheduler dispatches the first
task, and the remaining queued task keeps `finishTime = some 3 ≤ 6 - 0`:
the SUCCESS conjunct is exercised non-vacuously. -/
theorem admission_deadline_feasibility_witness :
    (outC3.code = SUCCESS →
      ∀ t ∈ outC3.st.taskQueue, ∃ f : ℚ, t.finishTime = some f ∧
        f ≤ t.expiry - t.rtt_delay) ∧
    (∀ sv, spotC3.services.get? 0 = some sv → spotC3.is_cloud = false →
      spotC3.sched_policy = "FIFO" → ¬ spotC3.numberOfInstances.getD 0 0 = 0 →
      (fifoStore spotC3 0 1 0 6 0 0 sv.service_time).any violates = true →
      outC3.accepted = false ∧ outC3.code = CONGESTION ∧
      outC3.st.taskQueue = (fifoStore spotC3 0 1 0 6 0 0
          sv.service_time).dropLast ∧
      outC3.st.missed_requests = spotC3.missed_requests.set 0
        (spotC3.missed_requests.getD 0 0 + 1)) ∧
    (∀ sv, spotC3.services.get? 0 = some sv → spotC3.is_cloud = false →
      spotC3.sched_policy = "EDF" → ¬ spotC3.numberOfInstances.getD 0 0 = 0 →
      ¬ (6 : ℚ) - 1 - 0 - sv.service_time < 0 →
      (edfStore spotC3 0 1 0 6 0 0 sv.service_time).any violates = true →
      outC3.accepted = false ∧ outC3.code = CONGESTION ∧
      outC3.st.taskQueue = (edfStore spotC3 0 1 0 6 0 0
          sv.service_time).eraseIdx
        (edfAPos spotC3 0 1 0 6 0 0 sv.service_time) ∧
      outC3.st.missed_requests = spotC3.missed_requests.set 0
        (spotC3.missed_requests.getD 0 0 + 1)) :=
  admission_deadline_feasibility spotC3 0 1 0 6 0 0 outC3 rfl
    (by decide) (by decide) spotC3_admit


/- ### C4 and C5: merge tie-breaking and request budget of the workload
driver -/

def cexHp : HEvent :=
  { time := 1
    receiver := 0
    service := 0
    node := 0
    flow_id := 0
    traffic_class := 0
    rtt_delay := 0
    status := TASK_COMPLETE }

def cexCfg : WConfig :=
  { n_services := 1
    n_edgeRouters := 1
    num_classes := 1
    n_warmup := 0
    n_measured := 1
    rate_cum_dist := [1]
    receivers := [0]
    beta := 0
    expDraw := fun _ => 1
    randDraw := fun _ => 0
    zipfDraw := fun _ => 0 }

def cexReqEv : YEvent :=
  { receiver := 0
    content := 0
    log := true
    node := 0
    flow_id := 1
    traffic_class := 0
    rtt_delay := 0
    status := REQUEST }

def cexReqElem : TElem :=
  { time := 1, ev := cexReqEv, heapAfter := [cexHp] }

def cexHeapElem : TElem :=
  { time := 1, ev := yieldOfHeap cexHp true, heapAfter := [] }

lemma cexRun : wlRun cexCfg [cexHp] 3 = some [cexReqElem, cexHeapElem] := by
  norm_num [wlRun, wlLoop, wlInit, cexCfg, cexHp, cexReqElem, cexHeapElem,
    cexReqEv, drainLoop, idxOfMin, listMin, pickClass, yieldOfHeap,
    REQUEST, TASK_COMPLETE, List.range_succ, List.findIdx_cons,
    List.findIdx_nil]

/-- **C4 counterexample.**  The drain loop of lines 311-317 uses the
strict comparison `eventObj.time < t_event`, so a heap event whose time
equals the REQUEST's `t_event` is *not* yielded first: in this concrete
run the REQUEST at time 1 is yielded while the heap still holds
`cexHp` (time 1, status TASK_COMPLETE), which only comes out on the next
outer iteration.  This refutes "ties are broken by yielding heap events
first" and its restated form "never yields a REQUEST at time t while the
heap still holds an event with time ≤ t". -/
theorem workload_tie_goes_to_request :
    wlRun cexCfg [cexHp] 3 = some [cexReqElem, cexHeapElem] ∧
    cexReqElem.ev.status = REQUEST ∧
    cexHp ∈ cexReqElem.heapAfter ∧
    cexHp.time ≤ cexReqElem.time ∧
    cexHeapElem.ev.status ≠ REQUEST ∧
    cexHeapElem.time = cexReqElem.time :=
  ⟨cexRun, rfl, by simp [cexReqElem], by decide, by decide, rfl⟩

lemma drainLoop_spec (w c : ℕ) (t : ℚ) :
    ∀ heap : List HEvent, heap.Pairwise (fun a b => a.time ≤ b.time) →
      (∀ el ∈ (drainLoop w c t heap).1, ∀ e ∈ el.heapAfter, el.time ≤ e.time) ∧
      (∀ e ∈ (drainLoop w c t heap).2, t ≤ e.time) ∧
      (drainLoop w c t heap).2.Pairwise (fun a b => a.time ≤ b.time) := by
  intro heap
  induction heap with
  | nil =>
    intro _
    refine ⟨?_, ?_, ?_⟩ <;> simp [drainLoop]
  | cons e rest ih =>
    intro hs
    rcases List.pairwise_cons.mp hs with ⟨hhead, htail⟩
    have iht := ih htail
    by_cases hlt : e.time < t
    · simp only [drainLoop, if_pos hlt]
      refine ⟨?_, iht.2.1, iht.2.2⟩
      intro el hel
      rcases List.mem_cons.mp hel with rfl | hel
      · intro e' he'
        exact hhead e' he'
      · exact iht.1 el hel
    · simp only [drainLoop, if_neg hlt]
      refine ⟨by simp, ?_, hs⟩
      intro e' he'
      rcases List.mem_cons.mp he' with rfl | hm
      · exact le_of_not_lt hlt
      · exact le_trans (le_of_not_lt hlt) (hhead e' hm)

lemma wlLoop_snapshot (cfg : WConfig) :
    ∀ (fuel : ℕ) (st : WState) (tr : List TElem),
      st.heap.Pairwise (fun a b => a.time ≤ b.time) →
      wlLoop cfg fuel st = some tr →
      ∀ el ∈ tr, ∀ e ∈ el.heapAfter, el.time ≤ e.time := by
  intro fuel
  induction fuel with
  | zero =>
    intro st tr _ h
    exact Option.noConfusion h
  | succ fuel ih =>
    intro st tr hs h
    simp only [wlLoop] at h
    split at h
    · split at h
      · exact Option.noConfusion h
      · have hd := drainLoop_spec cfg.n_warmup st.req_counter
          (listMin st.events) st.heap hs
        split at h
        · rcases Option.map_eq_some'.mp h with ⟨tr', hrec, rfl⟩
          intro el hel
          rcases List.mem_append.mp hel with hel | hel
          · exact hd.1 el hel
          · exact ih _ _ (by exact hd.2.2) hrec el hel
        · rcases Option.bind_eq_some.mp h with ⟨receiver, hget, hbody⟩
          rcases Option.map_eq_some'.mp hbody with ⟨tr', hrec, rfl⟩
          intro el hel
          rcases List.mem_append.mp hel with hel | hel
          · exact hd.1 el hel
          · rcases List.mem_cons.mp hel with rfl | hel
            · intro e he
              exact hd.2.1 e he
            · exact ih _ _ (by exact hd.2.2) hrec el hel
    · obtain rfl := Option.some.inj h
      intro el hel
      exact absurd hel (List.not_mem_nil el)

/-- **C4** (amended).  What the merge does guarantee: heap events
*strictly* earlier than the next REQUEST timestamp are yielded first.
For every completed run from a time-sorted initial heap, every yielded
event leaves only events with time ≥ its own timestamp in the heap; ties
between a heap event and a REQUEST go to the REQUEST, not the heap
event. -/
theorem workload_no_earlier_heap_event (cfg : WConfig) (heap0 : List HEvent)
    (fuel : ℕ) (tr : List TElem)
    (hsort : heap0.Pairwise (fun a b => a.time ≤ b.time))
    (hrun : wlRun cfg heap0 fuel = some tr) :
    ∀ el ∈ tr, ∀ e ∈ el.heapAfter, el.time ≤ e.time :=
  wlLoop_snapshot cfg fuel (wlInit cfg heap0) tr hsort hrun

def cexReqElem0 : TElem :=
  { time := 1, ev := cexReqEv, heapAfter := [] }

lemma cexRunEmpty : wlRun cexCfg [] 2 = some [cexReqElem0] := by
  norm_num [wlRun, wlLoop, wlInit, cexCfg, cexReqElem0, cexReqEv, drainLoop,
    idxOfMin, listMin, pickClass, REQUEST, List.range_succ, List.findIdx_cons,
    List.findIdx_nil]

/-- Closed witness for `workload_no_earlier_heap_event`: the concrete
one-request run from an empty (trivially sorted) heap. -/
theorem workload_no_earlier_heap_event_witness :
    wlRun cexCfg [] 2 = some [cexReqElem0] ∧
    (∀ el ∈ [cexReqElem0], ∀ e ∈ el.heapAfter, el.time ≤ e.time) :=
  ⟨cexRunEmpty, workload_no_earlier_heap_event cexCfg [] 2 [cexReqElem0]
    List.Pairwise.nil cexRunEmpty⟩

lemma drainLoop_status (w c : ℕ) (t : ℚ) :
    ∀ heap : List HEvent, (∀ e ∈ heap, e.status ≠ REQUEST) →
      (∀ el ∈ (drainLoop w c t heap).1, el.ev.status ≠ REQUEST) ∧
      (∀ e ∈ (drainLoop w c t heap).2, e.status ≠ REQUEST) := by
  intro heap
  induction heap with
  | nil =>
    intro _
    refine ⟨?_, ?_⟩ <;> simp [drainLoop]
  | cons e rest ih =>
    intro hstat
    have hhd : e.status ≠ REQUEST := hstat e (List.mem_cons_self e rest)
    have htl : ∀ x ∈ rest, x.status ≠ REQUEST :=
      fun x hx => hstat x (List.mem_cons_of_mem e hx)
    have iht := ih htl
    by_cases hlt : e.time < t
    · simp only [drainLoop, if_pos hlt]
      refine ⟨?_, iht.2⟩
      intro el hel
      rcases List.mem_cons.mp hel with rfl | hel
      · exact hhd
      · exact iht.1 el hel
    · simp only [drainLoop, if_neg hlt]
      exact ⟨by simp, hstat⟩

lemma reqCount_append (a b : List TElem) :
    reqCount (a ++ b) = reqCount a + reqCount b := by
  simp [reqCount, List.filter_append]

lemma reqCount_eq_zero (a : List TElem)
    (h : ∀ el ∈ a, el.ev.status ≠ REQUEST) : reqCount a = 0 := by
  simp only [reqCount, List.length_eq_zero]
  rw [List.filter_eq_nil_iff]
  intro el hel
  simp only [beq_iff_eq]
  exact h el hel

lemma reqCount_cons (el : TElem) (tr : List TElem) :
    reqCount (el :: tr) =
      (if el.ev.status == REQUEST then 1 else 0) + reqCount tr := by
  by_cases hb : (el.ev.status == REQUEST) = true
  · simp [reqCount, List.filter_cons, hb, Nat.add_comm]
  · simp [reqCount, List.filter_cons, hb]

lemma wlLoop_reqCount (cfg : WConfig) :
    ∀ (fuel : ℕ) (st : WState) (tr : List TElem),
      (∀ e ∈ st.heap, e.status ≠ REQUEST) →
      wlLoop cfg fuel st = some tr →
      reqCount tr = (cfg.n_warmup + cfg.n_measured) - st.req_counter := by
  intro fuel
  induction fuel with
  | zero =>
    intro st tr _ h
    exact Option.noConfusion h
  | succ fuel ih =>
    intro st tr hstat h
    simp only [wlLoop] at h
    split at h
    · rename_i hcond
      split at h
      · exact Option.noConfusion h
      · have hd := drainLoop_status cfg.n_warmup st.req_counter
          (listMin st.events) st.heap hstat
        split at h
        · rename_i hbud
          rcases Option.map_eq_some'.mp h with ⟨tr', hrec, rfl⟩
          have ih0 := ih _ _ (by exact hd.2) hrec
          have ih' : reqCount tr' =
              (cfg.n_warmup + cfg.n_measured) - st.req_counter := ih0
          rw [reqCount_append, reqCount_eq_zero _ hd.1, ih']
          omega
        · rename_i hbud
          rcases Option.bind_eq_some.mp h with ⟨receiver, hget, hbody⟩
          rcases Option.map_eq_some'.mp hbody with ⟨tr', hrec, rfl⟩
          have ih0 := ih _ _ (by exact hd.2) hrec
          have ih' : reqCount tr' =
              (cfg.n_warmup + cfg.n_measured) - (st.req_counter + 1) := ih0
          rw [reqCount_append, reqCount_eq_zero _ hd.1, reqCount_cons, ih']
          norm_num [REQUEST]
          omega
    · obtain rfl := Option.some.inj h
      rename_i hcond
      have hc : cfg.n_warmup + cfg.n_measured ≤ st.req_counter := by
        by_contra hlt
        exact hcond (Or.inl (by omega))
      simp [reqCount]
      omega

lemma foldlMin_mem : ∀ (t : List ℚ) (a : ℚ), t.foldl min a ∈ a :: t := by
  intro t
  induction t with
  | nil =>
    intro a
    simp
  | cons b t' ih =>
    intro a
    simp only [List.foldl_cons]
    have h := ih (min a b)
    rcases List.mem_cons.mp h with he | hm
    · rw [he]
      rcases min_choice a b with h1 | h1 <;> rw [h1]
      · exact List.mem_cons_self _ _
      · exact List.mem_cons_of_mem a (List.mem_cons_self _ _)
    · exact List.mem_cons_of_mem a (List.mem_cons_of_mem b hm)

lemma idxOfMin_lt_length (l : List ℚ) (hl : ¬ l = []) :
    idxOfMin l < l.length := by
  rcases l with _ | ⟨a, t⟩
  · exact absurd rfl hl
  · simp only [idxOfMin]
    apply List.findIdx_lt_length_of_exists
    exact ⟨t.foldl min a, foldlMin_mem t a, by simp⟩

lemma pickClass_lt (dist : List ℚ) (x : ℚ) (C : ℕ) (hC : 0 < C)
    (hlen : dist.length = C) : pickClass dist x < C := by
  unfold pickClass
  rcases hf : dist.findIdx? (fun d => decide (x < d)) with _ | i
  · simpa using hC
  · simp only [Option.getD_some]
    have h := (List.findIdx?_eq_some_iff_findIdx_eq.mp hf).1
    omega

lemma wlLoop_terminates_empty (cfg : WConfig)
    (hb : cfg.beta = 0) (hnc : 0 < cfg.num_classes)
    (hdist : cfg.rate_cum_dist.length = cfg.num_classes)
    (hrecv : cfg.n_edgeRouters * cfg.num_classes ≤ cfg.receivers.length)
    (hpos : 0 < cfg.n_services * cfg.n_edgeRouters) :
    ∀ (k : ℕ) (st : WState), st.heap = [] →
      st.events.length = cfg.n_services * cfg.n_edgeRouters →
      cfg.n_warmup + cfg.n_measured ≤ st.req_counter + k →
      ∃ tr, wlLoop cfg (k + 1) st = some tr := by
  intro k
  induction k with
  | zero =>
    intro st hh hl hk
    refine ⟨[], ?_⟩
    simp only [wlLoop]
    rw [if_neg]
    intro hor
    rcases hor with hor | hor
    · omega
    · exact hor hh
  | succ k ih =>
    intro st hh hl hk
    by_cases hc : cfg.n_warmup + cfg.n_measured ≤ st.req_counter
    · refine ⟨[], ?_⟩
      simp only [wlLoop]
      rw [if_neg]
      intro hor
      rcases hor with hor | hor
      · omega
      · exact hor hh
    · have hne : ¬ st.events = [] := by
        intro h0
        rw [h0] at hl
        simp only [List.length_nil] at hl
        exact absurd hl.symm (Nat.pos_iff_ne_zero.mp hpos)
      obtain ⟨m, hm⟩ : ∃ m, m = k + 1 := ⟨k + 1, rfl⟩
      rw [show k + 1 + 1 = m + 1 from by omega]
      simp only [wlLoop, hh, drainLoop]
      rw [if_pos (Or.inl (by omega))]
      rw [if_neg hne]
      rw [if_neg hc]
      rw [if_pos hb, if_pos hb]
      have h3 : pickClass cfg.rate_cum_dist (cfg.randDraw st.rIdx) <
          cfg.num_classes := pickClass_lt _ _ _ hnc hdist
      have h2 : idxOfMin st.events / cfg.n_services < cfg.n_edgeRouters := by
        apply Nat.div_lt_of_lt_mul
        have h1 : idxOfMin st.events < st.events.length :=
          idxOfMin_lt_length _ hne
        omega
      have h5 : (idxOfMin st.events / cfg.n_services + 1) * cfg.num_classes =
          idxOfMin st.events / cfg.n_services * cfg.num_classes +
            cfg.num_classes := by
        ring
      have h4 : (idxOfMin st.events / cfg.n_services + 1) * cfg.num_classes ≤
          cfg.n_edgeRouters * cfg.num_classes :=
        Nat.mul_le_mul_right _ (by omega)
      have hlt : idxOfMin st.events / cfg.n_services * cfg.num_classes +
          pickClass cfg.rate_cum_dist (cfg.randDraw st.rIdx) <
          cfg.receivers.length := by
        omega
      rw [List.get?_eq_get hlt]
      simp only [Option.some_bind]
      rw [← Option.isSome_iff_exists, Option.isSome_map',
        Option.isSome_iff_exists]
      rw [hm]
      apply ih
      · rfl
      · simp [hl]
      · show cfg.n_warmup + cfg.n_measured ≤ st.req_counter + 1 + k
        omega

/-- **C5.**  Request budget and termination: (i) every completed run
whose initial heap carries no REQUEST-status event yields exactly
`n_warmup + n_measured` REQUEST events (once the budget is exhausted the
`continue` of lines 319-321 only lets heap events through, and the loop
exits when the heap is empty, reaching `raise StopIteration`); (ii) with
an empty heap (and lane array, class table and receiver table of the
sizes `__init__` builds), `n_warmup + n_measured + 1` outer iterations
complete the run, which yields exactly the budgeted REQUESTs. -/
theorem workload_request_budget (cfg : WConfig) :
    (∀ (heap0 : List HEvent) (fuel : ℕ) (tr : List TElem),
      (∀ e ∈ heap0, e.status ≠ REQUEST) →
      wlRun cfg heap0 fuel = some tr →
      reqCount tr = cfg.n_warmup + cfg.n_measured) ∧
    (cfg.beta = 0 → 0 < cfg.num_classes →
      cfg.rate_cum_dist.length = cfg.num_classes →
      cfg.n_edgeRouters * cfg.num_classes ≤ cfg.receivers.length →
      0 < cfg.n_services * cfg.n_edgeRouters →
      ∃ tr, wlRun cfg [] (cfg.n_warmup + cfg.n_measured + 1) = some tr ∧
        reqCount tr = cfg.n_warmup + cfg.n_measured) := by
  constructor
  · intro heap0 fuel tr hstat hrun
    have h := wlLoop_reqCount cfg fuel (wlInit cfg heap0) tr
      (by exact hstat) hrun
    simpa [wlInit] using h
  · intro hb hnc hdist hrecv hpos
    obtain ⟨tr, htr⟩ := wlLoop_terminates_empty cfg hb hnc hdist hrecv hpos
      (cfg.n_warmup + cfg.n_measured) (wlInit cfg []) rfl
      (by simp [wlInit])
      (by show cfg.n_warmup + cfg.n_measured ≤
            0 + (cfg.n_warmup + cfg.n_measured)
          omega)
    refine ⟨tr, htr, ?_⟩
    have h := wlLoop_reqCount cfg (cfg.n_warmup + cfg.n_measured + 1)
      (wlInit cfg []) tr (by simp [wlInit]) htr
    simpa [wlInit] using h

/-- Closed witness for `workload_request_budget`: the empty-heap run of
`cexCfg` terminates within 2 iterations and yields exactly its one
budgeted REQUEST. -/
theorem workload_request_budget_witness :
    ∃ tr, wlRun cexCfg [] 2 = some tr ∧ reqCount tr = 1 :=
  (workload_request_budget cexCfg).2 rfl (by decide) rfl (by decide) (by decide)

end Jsac
